import Mathlib

/-!
Verification of the SVG element-subset extraction and re-insertion pipeline
of the renaissance-ink repository.

The embedding models the DOM-level behaviour of the TypeScript source:

* `Node` is the parsed document tree (JSDOM's element/text nodes restricted
  to the parts the code touches: tag name, attribute list, ordered children).
* `insertAnimations` embeds `insertAnimations` of
  `src/server/services/openai.ts` (the animation splicer).
* `extractSelectedElements` embeds `extractSelectedElements` of
  `src/server/utils/svg.ts`.
* `calculateElementBounds`, `calculateGroupBounds` and `previewHandler`
  embed the functions of `src/server/routes/svg.ts`.
* `verifyCompleteSvg` and `validateSvgStructure` embed the regex-based
  checks of `src/server/openai.ts`, scanning character lists exactly the
  way the JavaScript regexes scan the string.

JavaScript numbers are modelled as exact rationals, with `Option ℚ` for
possibly-NaN intermediate values (`none` plays the role of NaN and of the
±Infinity fold seeds, which the source eliminates with its `isFinite`
guards before any value escapes); IEEE rounding and the `Infinity` literal
in attribute strings are not modelled.  Parsing of the document itself is
abstracted: theorems quantify over the parsed tree.
-/

inductive Node where
  | element (tag : String) (attrs : List (String × String)) (children : List Node)
  | text (s : String)
deriving Repr

mutual

def nodeDecEq : (a b : Node) → Decidable (a = b)
  | .text s, .text t =>
    match String.decEq s t with
    | isTrue h => isTrue (by rw [h])
    | isFalse h => isFalse (fun hh => by injection hh; exact h (by assumption))
  | .text _, .element _ _ _ => isFalse (fun h => Node.noConfusion h)
  | .element _ _ _, .text _ => isFalse (fun h => Node.noConfusion h)
  | .element t1 a1 c1, .element t2 a2 c2 =>
    match String.decEq t1 t2, List.hasDecEq a1 a2, nodeListDecEq c1 c2 with
    | isTrue h1, isTrue h2, isTrue h3 => isTrue (by rw [h1, h2, h3])
    | isFalse h1, _, _ => isFalse (fun hh => by injection hh; exact h1 (by assumption))
    | _, isFalse h2, _ => isFalse (fun hh => by injection hh; exact h2 (by assumption))
    | _, _, isFalse h3 => isFalse (fun hh => by injection hh; exact h3 (by assumption))

def nodeListDecEq : (a b : List Node) → Decidable (a = b)
  | [], [] => isTrue rfl
  | [], _ :: _ => isFalse (fun h => List.noConfusion h)
  | _ :: _, [] => isFalse (fun h => List.noConfusion h)
  | a :: as, b :: bs =>
    match nodeDecEq a b, nodeListDecEq as bs with
    | isTrue h1, isTrue h2 => isTrue (by rw [h1, h2])
    | isFalse h1, _ => isFalse (fun hh => by injection hh; exact h1 (by assumption))
    | _, isFalse h2 => isFalse (fun hh => by injection hh; exact h2 (by assumption))

end

instance : DecidableEq Node := nodeDecEq

/-- Attribute lookup: the DOM keeps at most one attribute per name, and the
parser keeps the first occurrence, so `getAttribute` is first-match lookup. -/
def alook (a : List (String × String)) (k : String) : Option String :=
  (a.find? (fun p => p.1 == k)).map (·.2)

/-- ASCII lowercasing, modelling JavaScript's `toLowerCase` on tag names
(non-ASCII case mapping is not modelled). -/
def lowerChar (c : Char) : Char :=
  if 'A' ≤ c ∧ c ≤ 'Z' then Char.ofNat (c.toNat + 32) else c

def lowerString (s : String) : String := String.mk (s.data.map lowerChar)

/-- JavaScript `String.prototype.trim`: strip whitespace from both ends. -/
def trimString (s : String) : String :=
  String.mk (((s.data.dropWhile Char.isWhitespace).reverse.dropWhile Char.isWhitespace).reverse)

def nodeTag : Node → String
  | .element t _ _ => t
  | .text _ => ""

def nodeAttrs : Node → List (String × String)
  | .element _ a _ => a
  | .text _ => []

def nodeChildren : Node → List Node
  | .element _ _ cs => cs
  | .text _ => []

abbrev ElemPred := String → List (String × String) → Bool

mutual

/-- First element in tree (pre-order) order satisfying `p`; models
`document.querySelector` / `document.getElementById` over the parsed tree. -/
def findElem (p : ElemPred) : Node → Option Node
  | .text _ => none
  | .element t a cs => if p t a then some (.element t a cs) else findElemL p cs

def findElemL (p : ElemPred) : List Node → Option Node
  | [] => none
  | c :: cs =>
    match findElem p c with
    | some e => some e
    | none => findElemL p cs

end

mutual

/-- Apply `f` to the first element in tree order satisfying `p`, leaving the
rest of the tree untouched; models a DOM mutation performed on the node
returned by `querySelector`/`getElementById`. -/
def modElem (p : ElemPred) (f : Node → Node) : Node → Node
  | .text s => .text s
  | .element t a cs =>
    if p t a then f (.element t a cs) else .element t a (modElemL p f cs)

def modElemL (p : ElemPred) (f : Node → Node) : List Node → List Node
  | [] => []
  | c :: cs =>
    if (findElem p c).isSome then modElem p f c :: cs else c :: modElemL p f cs

end

/-- Predicate selecting elements with the given tag name. -/
def tagP (t0 : String) : ElemPred := fun t _ => t == t0

/-- Predicate selecting elements whose `id` attribute equals `i`
(`document.getElementById`). -/
def idP (i : String) : ElemPred := fun _ a => alook a "id" == some i

/-- Descend from a node along a list of child indices. -/
def getPath : Node → List Nat → Option Node
  | n, [] => some n
  | .element _ _ cs, i :: rest =>
    match cs[i]? with
    | some c => getPath c rest
    | none => none
  | .text _, _ :: _ => none

def serializeAttrs (a : List (String × String)) : String :=
  String.join (a.map (fun p => " " ++ p.1 ++ "=\"" ++ p.2 ++ "\""))

mutual

/-- Serialization of a node, as JSDOM's `outerHTML` produces it for SVG
content: attributes in stored order, explicit end tags, text emitted raw
(escaping of special characters inside text is not modelled; no claim
exercises it). -/
def serializeNode : Node → String
  | .text s => s
  | .element t a cs =>
    "<" ++ t ++ serializeAttrs a ++ ">" ++ serializeNodeL cs ++ "</" ++ t ++ ">"

def serializeNodeL : List Node → String
  | [] => ""
  | c :: cs => serializeNode c ++ serializeNodeL cs

end

/-- JavaScript object assignment `obj[k] = v`: overwrite in place if the key
exists (keeping its insertion position), otherwise append. -/
def objInsert (m : List (String × String)) (k v : String) : List (String × String) :=
  if m.any (fun p => p.1 == k) then m.map (fun p => if p.1 == k then (k, v) else p)
  else m ++ [(k, v)]

/-- Build a JavaScript object from a list of key/value assignments in order
(later assignments to the same key overwrite, keys keep first-insertion
order), as `matches.forEach(m => attrs[m[1]] = m[2])` does. -/
def objOfList (l : List (String × String)) : List (String × String) :=
  l.foldl (fun m p => objInsert m p.1 p.2) []

/-- JavaScript spread merge over an existing object: insert all entries of
`b` into `a` in order, as the second spread of a `spread a, spread b`
object literal does. -/
def objMerge (a b : List (String × String)) : List (String × String) :=
  b.foldl (fun m p => objInsert m p.1 p.2) a

/-! ## The animation splicer (`insertAnimations`, src/server/services/openai.ts) -/

structure AnimationElement where
  elementId : String
  animations : List String
deriving Repr, DecidableEq

def defsNode : Node := .element "defs" [] []

def appendChildren (ns : List Node) : Node → Node
  | .element t a cs => .element t a (cs ++ ns)
  | .text s => .text s

def prependChild (d : Node) : Node → Node
  | .element t a cs => .element t a (d :: cs)
  | .text s => .text s

/-- The defs step of `insertAnimations`: if `document.querySelector('defs')`
finds nothing, create `<defs>` and `svg.insertBefore(defs, svg.firstChild)`
on the first `svg` element. -/
def ensureDefs (doc : Node) : Node :=
  if (findElem (tagP "defs") doc).isSome then doc
  else modElem (tagP "svg") (prependChild defsNode) doc

/-- `template.innerHTML = animation.trim(); template.content.firstChild`.
The fragment parser `pf` is a parameter of the embedding (the source
delegates it to JSDOM's HTML fragment parser); `none` models the `TypeError`
thrown by `appendChild(null)` when the fragment parses to no node. -/
def fragmentHead (pf : String → List Node) (s : String) : Option Node :=
  (pf (trimString s)).head?

/-- One iteration of the `for (const { elementId, animations } of
animationElements)` loop: resolve the id in the current document, skip
silently when it does not resolve, otherwise append the parsed fragments
to the resolved element in order. -/
def processAnimationElement (pf : String → List Node) (doc : Node)
    (ae : AnimationElement) : Option Node :=
  match findElem (idP ae.elementId) doc with
  | none => some doc
  | some _ =>
    match ae.animations.mapM (fragmentHead pf) with
    | none => none
    | some ns => some (modElem (idP ae.elementId) (appendChildren ns) doc)

/-- `insertAnimations(svgContent, animationElements)`: fail (`throw`) when
no `svg` element exists, ensure a `defs` child, process each
`AnimationElement` against the live document, and return the first `svg`
element's subtree (`document.querySelector('svg')?.outerHTML`). -/
def insertAnimations (pf : String → List Node) (doc : Node)
    (aes : List AnimationElement) : Option Node :=
  if (findElem (tagP "svg") doc).isSome then
    match aes.foldlM (processAnimationElement pf) (ensureDefs doc) with
    | none => none
    | some d2 => findElem (tagP "svg") d2
  else none

/-- The ids targeted by a batch. -/
def targets (aes : List AnimationElement) : List String := aes.map (·.elementId)

/-! ## The subset extractor (`extractSelectedElements`, src/server/utils/svg.ts) -/

def svgNS : String := "http://www.w3.org/2000/svg"

def emptyFallbackSvg : String := "<svg xmlns=\"http://www.w3.org/2000/svg\"></svg>"

/-- `extractSelectedElements(svgContent, elementIds)` of
`src/server/utils/svg.ts`: build a minimal `svg` carrying `xmlns` plus every
attribute of the original root, append a clone of each resolved id in list
order, and serialize; the `catch` branch returns the fixed empty document.
(The inner `setNamespace` walk only acts on nodes with a null
`namespaceURI`, which parsed nodes never have, so it is the identity here;
a clone of a pure tree is the subtree itself.) -/
def extractSelectedElements (doc : Node) (elementIds : List String) : String :=
  match findElem (tagP "svg") doc with
  | none => emptyFallbackSvg
  | some orig =>
    let attrs := (nodeAttrs orig).foldl (fun m p => objInsert m p.1 p.2)
      (objInsert [] "xmlns" svgNS)
    let clones := elementIds.filterMap (fun i => findElem (idP i) doc)
    serializeNode (.element "svg" attrs clones)

/-! ## Numbers: JavaScript `parseFloat` over exact rationals -/

def digitsToNat (l : List Char) : Nat :=
  l.foldl (fun n c => n * 10 + (c.toNat - 48)) 0

def parseExpPart (r : List Char) : ℤ :=
  let (es, r1) : ℤ × List Char :=
    match r with
    | '-' :: rr => (-1, rr)
    | '+' :: rr => (1, rr)
    | _ => (1, r)
  let ed := r1.takeWhile Char.isDigit
  if ed.isEmpty then 0 else es * (digitsToNat ed : ℤ)

/-- JavaScript `parseFloat`: skip leading whitespace, optional sign, decimal
digits with optional fraction and exponent, ignoring trailing garbage;
`none` models NaN (no digits at all).  The `Infinity` literal is not
modelled. -/
def parseFloatQ (s : String) : Option ℚ :=
  let l0 := s.data.dropWhile Char.isWhitespace
  let (sgn, l1) : ℚ × List Char :=
    match l0 with
    | '-' :: r => (-1, r)
    | '+' :: r => (1, r)
    | _ => (1, l0)
  let ip := l1.takeWhile Char.isDigit
  let l2 := l1.dropWhile Char.isDigit
  let (fp, l3) : List Char × List Char :=
    match l2 with
    | '.' :: r => (r.takeWhile Char.isDigit, r.dropWhile Char.isDigit)
    | _ => ([], l2)
  if ip.isEmpty && fp.isEmpty then none
  else
    let mant : ℚ := (digitsToNat ip : ℚ) + (digitsToNat fp : ℚ) / ((10 : ℚ) ^ fp.length)
    let expo : ℤ :=
      match l3 with
      | 'e' :: r => parseExpPart r
      | 'E' :: r => parseExpPart r
      | _ => 0
    some (sgn * mant * (10 : ℚ) ^ expo)

/-! ## Bounding boxes (src/server/routes/svg.ts) -/

structure Box where
  minX : ℚ
  minY : ℚ
  maxX : ℚ
  maxY : ℚ
deriving Repr, DecidableEq

/-- The fixed fallback returned when a min/max is not finite. -/
def defaultBox : Box := ⟨0, 0, 100, 100⟩

def getAttrStr (n : Node) (k : String) : Option String :=
  match n with
  | .element _ a _ => alook a k
  | .text _ => none

/-- `element.getAttribute(k) || '0'` — both a missing attribute (null) and
an empty string are falsy in JavaScript. -/
def attrOrZero (n : Node) (k : String) : String :=
  match getAttrStr n k with
  | some v => if v == "" then "0" else v
  | none => "0"

/-- `element.getAttribute(k) || ''`. -/
def attrOrEmpty (n : Node) (k : String) : String :=
  match getAttrStr n k with
  | some v => v
  | none => ""

def osub (x y : Option ℚ) : Option ℚ :=
  match x, y with
  | some a, some b => some (a - b)
  | _, _ => none

def oadd (x y : Option ℚ) : Option ℚ :=
  match x, y with
  | some a, some b => some (a + b)
  | _, _ => none

/-- Fold step for `Math.min` with an `Infinity` seed (`none` = untouched). -/
def ominQ (acc : Option ℚ) (v : ℚ) : Option ℚ :=
  match acc with
  | none => some v
  | some a => some (min a v)

/-- Fold step for `Math.max` with a `-Infinity` seed (`none` = untouched). -/
def omaxQ (acc : Option ℚ) (v : ℚ) : Option ℚ :=
  match acc with
  | none => some v
  | some a => some (max a v)

/-- The trailing guard of both bounds functions: if any coordinate is not
finite, return the fixed default box. -/
def finishBox (mnx mny mxx mxy : Option ℚ) : Box :=
  match mnx, mny, mxx, mxy with
  | some a, some b, some c, some d => ⟨a, b, c, d⟩
  | _, _, _, _ => defaultBox

/-- State of the scanner for the path-data regex `-?\d+\.?\d*` applied
globally: outside a number, after a lone minus sign, inside the integer
digits, just after the decimal point, or inside the fraction digits. -/
inductive NumSt where
  | idle : NumSt
  | neg : NumSt
  | int (sgn : ℚ) (v : ℚ) : NumSt
  | dot (sgn : ℚ) (v : ℚ) : NumSt
  | frac (sgn : ℚ) (v : ℚ) (sc : ℚ) : NumSt
deriving Repr

def emitOf : NumSt → Option ℚ
  | .int s v => some (s * v)
  | .dot s v => some (s * v)
  | .frac s v _ => some (s * v)
  | _ => none

def pathNumsGo : NumSt → List Char → List ℚ
  | st, [] =>
    (match emitOf st with
     | some q => [q]
     | none => [])
  | st, c :: rest =>
    if c.isDigit then
      let d : ℚ := ((c.toNat - 48 : ℕ) : ℚ)
      match st with
      | .idle => pathNumsGo (.int 1 d) rest
      | .neg => pathNumsGo (.int (-1) d) rest
      | .int s v => pathNumsGo (.int s (v * 10 + d)) rest
      | .dot s v => pathNumsGo (.frac s (v + d / 10) (1 / 100)) rest
      | .frac s v sc => pathNumsGo (.frac s (v + d * sc) (sc / 10)) rest
    else if c = '-' then
      match emitOf st with
      | some q => q :: pathNumsGo .neg rest
      | none => pathNumsGo .neg rest
    else if c = '.' then
      match st with
      | .int s v => pathNumsGo (.dot s v) rest
      | st2 =>
        match emitOf st2 with
        | some q => q :: pathNumsGo .idle rest
        | none => pathNumsGo .idle rest
    else
      match emitOf st with
      | some q => q :: pathNumsGo .idle rest
      | none => pathNumsGo .idle rest

/-- All matches of `-?\d+\.?\d*` over the path data, in order, as rationals
(each match is a plain decimal literal, so `parseFloat` on it is exact). -/
def scanPathNums (s : String) : List ℚ := pathNumsGo .idle s.data

/-- The even-index/odd-index fold of the path branch: even positions feed
the X min/max, odd positions the Y min/max. -/
def foldPathGo : Nat → List ℚ → (Option ℚ × Option ℚ) → (Option ℚ × Option ℚ) →
    ((Option ℚ × Option ℚ) × (Option ℚ × Option ℚ))
  | _, [], xs, ys => (xs, ys)
  | i, n :: rest, xs, ys =>
    if i % 2 = 0 then foldPathGo (i + 1) rest (ominQ xs.1 n, omaxQ xs.2 n) ys
    else foldPathGo (i + 1) rest xs (ominQ ys.1 n, omaxQ ys.2 n)

def coordAttrNames : List String := ["x", "y", "x1", "y1", "x2", "y2", "cx", "cy"]

/-- One step of the coordinate-attribute scan of the default branch of
`calculateElementBounds`: parse one attribute (missing reads as `'0'`),
skip NaN, and fold into the axis picked by `attr.includes('x')`. -/
def coordStep (e : Node) (st : (Option ℚ × Option ℚ) × (Option ℚ × Option ℚ))
    (attr : String) : (Option ℚ × Option ℚ) × (Option ℚ × Option ℚ) :=
  match parseFloatQ (attrOrZero e attr) with
  | none => st
  | some v =>
    if attr.data.contains 'x' then ((ominQ st.1.1 v, omaxQ st.1.2 v), st.2)
    else (st.1, (ominQ st.2.1 v, omaxQ st.2.2 v))

/-- The default branch of `calculateElementBounds`: scan the eight
coordinate attributes in order. -/
def coordFold (e : Node) : (Option ℚ × Option ℚ) × (Option ℚ × Option ℚ) :=
  coordAttrNames.foldl (coordStep e) ((none, none), (none, none))

/-- `calculateElementBounds` of src/server/routes/svg.ts. -/
def calculateElementBounds (e : Node) : Box :=
  let tn := lowerString (nodeTag e)
  if tn == "circle" then
    let cx := parseFloatQ (attrOrZero e "cx")
    let cy := parseFloatQ (attrOrZero e "cy")
    let r := parseFloatQ (attrOrZero e "r")
    finishBox (osub cx r) (osub cy r) (oadd cx r) (oadd cy r)
  else if tn == "rect" then
    let x := parseFloatQ (attrOrZero e "x")
    let y := parseFloatQ (attrOrZero e "y")
    let w := parseFloatQ (attrOrZero e "width")
    let h := parseFloatQ (attrOrZero e "height")
    finishBox x y (oadd x w) (oadd y h)
  else if tn == "path" then
    let folded := foldPathGo 0 (scanPathNums (attrOrEmpty e "d")) (none, none) (none, none)
    finishBox folded.1.1 folded.2.1 folded.1.2 folded.2.2
  else
    let folded := coordFold e
    finishBox folded.1.1 folded.2.1 folded.1.2 folded.2.2

/-- One step of the `elements.forEach` fold of `calculateGroupBounds`:
fold one element's box into the running min/max state
`((minX, maxX), (minY, maxY))`. -/
def groupStep (st : (Option ℚ × Option ℚ) × (Option ℚ × Option ℚ)) (e : Node) :
    (Option ℚ × Option ℚ) × (Option ℚ × Option ℚ) :=
  let b := calculateElementBounds e
  ((ominQ st.1.1 b.minX, omaxQ st.1.2 b.maxX),
   (ominQ st.2.1 b.minY, omaxQ st.2.2 b.maxY))

/-- `calculateGroupBounds` of src/server/routes/svg.ts: fold the per-element
boxes with min/max from ±Infinity seeds, then apply the finiteness guard. -/
def calculateGroupBounds (es : List Node) : Box :=
  let folded := es.foldl groupStep ((none, none), (none, none))
  finishBox folded.1.1 folded.2.1 folded.1.2 folded.2.2

/-! ## The preview route (`router.post('/preview')`, src/server/routes/svg.ts) -/

/-- The observable output of the preview handler: the four numbers written
into the new root's `viewBox` attribute, the two numbers of the group's
`translate(..)`, and the clones appended to the group, in order.  (The
handler serializes these into `<svg xmlns viewBox preserveAspectRatio>
<g transform>clones</g></svg>`; the decimal rendering of the numbers is not
modelled.) -/
structure PreviewOut where
  viewBox : ℚ × ℚ × ℚ × ℚ
  translate : ℚ × ℚ
  groupChildren : List Node
deriving Repr, DecidableEq

/-- The body of the `/preview` route: resolve each selected id
(`getElementById`, nulls filtered out), fail when none resolve, then build
the preview from the group bounds. -/
def previewHandler (doc : Node) (selectedElements : List String) :
    Except String PreviewOut :=
  let elems := selectedElements.filterMap (fun i => findElem (idP i) doc)
  if elems.length = 0 then .error "No selected elements found"
  else
    let bounds := calculateGroupBounds elems
    let width := bounds.maxX - bounds.minX
    let height := bounds.maxY - bounds.minY
    let padding := max width height * (1 / 10)
    let viewBoxSize := max width height + padding * 2
    .ok ⟨(0, 0, viewBoxSize, viewBoxSize),
         (-bounds.minX + padding, -bounds.minY + padding), elems⟩

/-! ## The structural validator (src/server/openai.ts) -/

/-- Scanner state for the global tag regexes: outside any candidate match,
just after a match-starting `<`, inside an opening-tag candidate
(`prev` is the last consumed character, used for the self-closing test),
or inside a closing-tag candidate (`seen` records that at least one
non-`>` character followed the slash, as `[^>]+` requires). -/
inductive TagScanSt where
  | outside : TagScanSt
  | afterLt : TagScanSt
  | inTag (prev : Char) : TagScanSt
  | afterSlash (seen : Bool) : TagScanSt
deriving Repr, DecidableEq

/-- Global scan of `/<[^\/][^>]*>/g`, counting only matches that do not end
in `/>` (the `openCount` of `verifyCompleteSvg`).  A candidate that never
reaches a `>` matches nothing, and no later candidate can close either, so
the scan ends. -/
def countOpensGo : TagScanSt → List Char → Nat
  | st, [] =>
    match st with
    | _ => 0
  | .outside, c :: rest =>
    if c = '<' then countOpensGo .afterLt rest else countOpensGo .outside rest
  | .afterLt, c :: rest =>
    if c = '/' then countOpensGo .outside rest else countOpensGo (.inTag c) rest
  | .inTag prev, c :: rest =>
    if c = '>' then (if prev = '/' then 0 else 1) + countOpensGo .outside rest
    else countOpensGo (.inTag c) rest
  | .afterSlash _, _ :: rest => countOpensGo .outside rest

/-- Global scan of `/<\/[^>]+>/g` (the `closeTags` count of
`verifyCompleteSvg`).  A failed `</>` candidate resumes scanning after its
`>`; the characters skipped contain no `<`, matching the regex engine's
one-character advance. -/
def countClosesGo : TagScanSt → List Char → Nat
  | _, [] => 0
  | .outside, c :: rest =>
    if c = '<' then countClosesGo .afterLt rest else countClosesGo .outside rest
  | .afterLt, c :: rest =>
    if c = '/' then countClosesGo (.afterSlash false) rest
    else if c = '<' then countClosesGo .afterLt rest
    else countClosesGo .outside rest
  | .afterSlash seen, c :: rest =>
    if c = '>' then
      (if seen then 1 + countClosesGo .outside rest else countClosesGo .outside rest)
    else countClosesGo (.afterSlash true) rest
  | .inTag _, _ :: rest => countClosesGo .outside rest

def countOpenTags (s : String) : Nat := countOpensGo .outside s.data

def countCloseTags (s : String) : Nat := countClosesGo .outside s.data

def hasGt : List Char → Bool
  | [] => false
  | '>' :: _ => true
  | _ :: rest => hasGt rest

/-- `/<svg[^>]*>/.test(s)`: an occurrence of `<svg` with some `>` after it. -/
def hasOpenSvgTag : List Char → Bool
  | '<' :: 's' :: 'v' :: 'g' :: rest => hasGt rest || hasOpenSvgTag rest
  | _ :: rest => hasOpenSvgTag rest
  | [] => false

/-- `/<\/svg>/.test(s)`: the literal substring `</svg>`. -/
def hasCloseSvgTag : List Char → Bool
  | '<' :: '/' :: 's' :: 'v' :: 'g' :: '>' :: _ => true
  | _ :: rest => hasCloseSvgTag rest
  | [] => false

/-- After `<?xml`, the regex `[^>]*\?>` matches exactly when the first `>`
is preceded by `?`; `prev` is the last consumed character. -/
def xmldeclTail (prev : Char) : List Char → Bool
  | [] => false
  | '>' :: _ => prev == '?'
  | c :: rest => xmldeclTail c rest

/-- `/<\?xml[^>]*\?>/.test(s)`. -/
def hasXmlDecl : List Char → Bool
  | '<' :: '?' :: 'x' :: 'm' :: 'l' :: rest =>
    xmldeclTail 'l' rest || hasXmlDecl rest
  | _ :: rest => hasXmlDecl rest
  | [] => false

/-- `verifyCompleteSvg` of src/server/openai.ts: the three presence tests
and the comparison of the non-self-closing open-tag count with the
close-tag count. -/
def verifyCompleteSvg (s : String) : Bool :=
  hasXmlDecl s.data && hasOpenSvgTag s.data && hasCloseSvgTag s.data &&
    (countOpenTags s == countCloseTags s)

/-- Split a character list at its first `>`: the part before it and the
part after it (`[^>]*` followed by the consumed `>`). -/
def splitAtGt (l : List Char) : Option (List Char × List Char) :=
  match l.dropWhile (fun c => c != '>') with
  | [] => none
  | _ :: rest => some (l.takeWhile (fun c => c != '>'), rest)

/-- First match of `/<\?xml[^>]*\?>/` (the `xmlDeclaration` extracted from
the original document), as the matched substring. -/
def firstXmlDecl : List Char → Option (List Char)
  | [] => none
  | '<' :: rest =>
    (match rest with
     | '?' :: 'x' :: 'm' :: 'l' :: rest2 =>
       match splitAtGt rest2 with
       | some (before, _) =>
         if before.getLast? == some '?'
         then some ('<' :: '?' :: 'x' :: 'm' :: 'l' :: (before ++ ['>']))
         else firstXmlDecl rest
       | none => firstXmlDecl rest
     | _ => firstXmlDecl rest)
  | _ :: rest => firstXmlDecl rest

/-- `svg.replace(/<\?xml[^>]*\?>/, '')`: remove the first match, keep
everything else. -/
def removeXmlDecl : List Char → List Char
  | [] => []
  | '<' :: rest =>
    (match rest with
     | '?' :: 'x' :: 'm' :: 'l' :: rest2 =>
       match splitAtGt rest2 with
       | some (before, after) =>
         if before.getLast? == some '?' then after
         else '<' :: removeXmlDecl rest
       | none => '<' :: rest
     | _ => '<' :: removeXmlDecl rest)
  | c :: rest => c :: removeXmlDecl rest

/-- First match of `/<svg[^>]*>/` as the matched substring (the root tags
extracted by `validateSvgStructure`). -/
def firstSvgTag : List Char → Option (List Char)
  | [] => none
  | '<' :: rest =>
    (match rest with
     | 's' :: 'v' :: 'g' :: rest2 =>
       match splitAtGt rest2 with
       | some (before, _) => some ('<' :: 's' :: 'v' :: 'g' :: (before ++ ['>']))
       | none => firstSvgTag rest
     | _ => firstSvgTag rest)
  | _ :: rest => firstSvgTag rest

/-- `svg.replace(/<svg[^>]*>/, repl)`: replace the first match. -/
def replaceSvgTag (repl : List Char) : List Char → List Char
  | [] => []
  | '<' :: rest =>
    (match rest with
     | 's' :: 'v' :: 'g' :: rest2 =>
       match splitAtGt rest2 with
       | some (_, after) => repl ++ after
       | none => '<' :: rest
     | _ => '<' :: replaceSvgTag repl rest)
  | c :: rest => c :: replaceSvgTag repl rest

def isWordChar (c : Char) : Bool := c.isAlphanum || c == '_'

/-- Split a character list at its first `"`. -/
def splitAtQuote (l : List Char) : Option (List Char × List Char) :=
  match l.dropWhile (fun c => c != '"') with
  | [] => none
  | _ :: rest => some (l.takeWhile (fun c => c != '"'), rest)

/-- Global scan of the attribute regex of `validateSvgStructure`,
`/(\w+:?\w+)="([^"]*)"/g`: a name of word characters with an optional
single colon (at least two characters when there is no colon, at least one
on each side of the colon), `="`, a double-quoted value.  On a failed
candidate the engine advances one character; on success it resumes after
the closing quote.  When no closing quote remains, no further match can
complete.  The fuel is the length of the scanned list; every recursive
call consumes at least one character, so it never runs out. -/
def extractAttrsGo : Nat → List Char → List (String × String)
  | 0, _ => []
  | _, [] => []
  | fuel + 1, c :: rest =>
    if isWordChar c then
      let w1 := (c :: rest).takeWhile isWordChar
      let r1 := (c :: rest).dropWhile isWordChar
      match r1 with
      | ':' :: r2 =>
        let w2 := r2.takeWhile isWordChar
        let r3 := r2.dropWhile isWordChar
        (match w2, r3 with
         | _ :: _, '=' :: '"' :: r4 =>
           (match splitAtQuote r4 with
            | some (v, r5) =>
              (String.mk (w1 ++ ':' :: w2), String.mk v) :: extractAttrsGo fuel r5
            | none => [])
         | _, _ => extractAttrsGo fuel rest)
      | '=' :: '"' :: r4 =>
        if 2 ≤ w1.length then
          match splitAtQuote r4 with
          | some (v, r5) => (String.mk w1, String.mk v) :: extractAttrsGo fuel r5
          | none => []
        else extractAttrsGo fuel rest
      | _ => extractAttrsGo fuel rest
    else extractAttrsGo fuel rest

/-- All matches of the attribute regex over a tag string, in order. -/
def extractAttrs (l : List Char) : List (String × String) :=
  extractAttrsGo l.length l

/-- `Object.entries(attrs).map(([k, v]) => ...).join(' ')`. -/
def joinAttrsSp (m : List (String × String)) : String :=
  String.intercalate " " (m.map (fun p => p.1 ++ "=\"" ++ p.2 ++ "\""))

/-- The XML-declaration step of `validateSvgStructure`: when the original
document has a declaration and the candidate does not start with that
exact declaration, prepend it (plus a newline) to the candidate with the
candidate's own first declaration removed. -/
def withOrigDecl (svg originalSvg : List Char) : List Char :=
  match firstXmlDecl originalSvg with
  | some d => if d.isPrefixOf svg then svg else d ++ '\n' :: removeXmlDecl svg
  | none => svg

/-- The merged root-attribute object of `validateSvgStructure`:
`mergedAttrs = spread of newAttrs then spread of originalAttrs`, each
attribute object built by last-wins assignment over the regex matches. -/
def reconciledRootAttrs (newTag origTag : List Char) : List (String × String) :=
  objMerge (objOfList (extractAttrs newTag)) (objOfList (extractAttrs origTag))

/-- `validateSvgStructure(svg, originalSvg)` of src/server/openai.ts: fix
the declaration, extract both root tags (throwing when either is missing),
merge their attribute objects with the original taking precedence,
rewrite the candidate's root tag, and append `</svg>` when missing. -/
def validateSvgStructure (svg originalSvg : String) : Except String String :=
  let svg1 := withOrigDecl svg.data originalSvg.data
  match firstSvgTag originalSvg.data, firstSvgTag svg1 with
  | some origTag, some newTag =>
    let mergedTag := ("<svg " ++ joinAttrsSp (reconciledRootAttrs newTag origTag) ++ ">").data
    let svg2 := replaceSvgTag mergedTag svg1
    let svg3 := if ("</svg>".data).isSuffixOf svg2 then svg2 else svg2 ++ ("</svg>".data)
    .ok (String.mk svg3)
  | _, _ => .error "Invalid SVG: missing svg tag"

instance exceptDecEq {ε α : Type} [DecidableEq ε] [DecidableEq α] :
    DecidableEq (Except ε α) := fun a b =>
  match a, b with
  | .error x, .error y =>
    match decEq x y with
    | isTrue h => isTrue (by rw [h])
    | isFalse h => isFalse (fun hh => by injection hh; exact h (by assumption))
  | .error _, .ok _ => isFalse (fun h => Except.noConfusion h)
  | .ok _, .error _ => isFalse (fun h => Except.noConfusion h)
  | .ok x, .ok y =>
    match decEq x y with
    | isTrue h => isTrue (by rw [h])
    | isFalse h => isFalse (fun hh => by injection hh; exact h (by assumption))

/-! ## Derived definitions used by the specifications -/

/-- Invariant of a min/max accumulator pair: both components untouched, or
both set with min at most max. -/
def pairInv (p : Option ℚ × Option ℚ) : Prop :=
  (p.1 = none ∧ p.2 = none) ∨ ∃ a b, p.1 = some a ∧ p.2 = some b ∧ a ≤ b

/-- Containment of one bounding box in another. -/
def boxContains (outer inner : Box) : Prop :=
  outer.minX ≤ inner.minX ∧ outer.minY ≤ inner.minY ∧
  inner.maxX ≤ outer.maxX ∧ inner.maxY ≤ outer.maxY

instance (outer inner : Box) : Decidable (boxContains outer inner) := by
  unfold boxContains; infer_instance

/-- The nodes the splicer obtains from one `AnimationElement`'s fragments:
the first node of each parsed fragment, in order (total version of
`fragmentHead`, meaningful when every fragment parses to at least one
node). -/
def fragNodes (pf : String → List Node) (ae : AnimationElement) : List Node :=
  ae.animations.map (fun s => (pf (trimString s)).headD (.text ""))

/-- All nodes the batch supplies for the id `i`, in batch order. -/
def appendedFor (pf : String → List Node) (i : String) (aes : List AnimationElement) :
    List Node :=
  ((aes.filter (fun ae => ae.elementId == i)).map (fragNodes pf)).flatten

/-- No element with an id from `S` occurs in `n`. -/
def nodeFreeOfIds (S : List String) (n : Node) : Prop :=
  ∀ i ∈ S, findElem (idP i) n = none

mutual

/-- Splice non-interference, as amended: the output tree keeps every
element's tag and attributes and relates children pointwise, except that an
element whose id is targeted may gain extra children appended at the end. -/
inductive SpliceSim (S : List String) : Node → Node → Prop where
  | text (s : String) : SpliceSim S (.text s) (.text s)
  | elem (t : String) (a : List (String × String)) {cs cs' : List Node} :
      SpliceSimL S cs cs' → SpliceSim S (.element t a cs) (.element t a cs')
  | elemApp (t : String) (a : List (String × String)) {cs cs' extra : List Node}
      (hid : ∃ i ∈ S, alook a "id" = some i) :
      SpliceSimL S cs cs' → SpliceSim S (.element t a cs) (.element t a (cs' ++ extra))

/-- Pointwise lifting of `SpliceSim` to child lists. -/
inductive SpliceSimL (S : List String) : List Node → List Node → Prop where
  | nil : SpliceSimL S [] []
  | cons {c c' : Node} {cs cs' : List Node} :
      SpliceSim S c c' → SpliceSimL S cs cs' → SpliceSimL S (c :: cs) (c' :: cs')

end

/-- The selected elements the preview route resolves, in selection order
(`selectedElements.map(getElementById).filter(el => el !== null)`). -/
def resolvedElems (doc : Node) (sel : List String) : List Node :=
  sel.filterMap (fun i => findElem (idP i) doc)

/-- The numbers the preview route writes into the `viewBox` attribute, as a
function of the group bounds: `0 0 s s` with
`s = max(width, height) + 2 * padding` and `padding = max(width, height) / 10`. -/
def previewViewBoxOf (b : Box) : ℚ × ℚ × ℚ × ℚ :=
  (0, 0,
   max (b.maxX - b.minX) (b.maxY - b.minY) +
     max (b.maxX - b.minX) (b.maxY - b.minY) * (1 / 10) * 2,
   max (b.maxX - b.minX) (b.maxY - b.minY) +
     max (b.maxX - b.minX) (b.maxY - b.minY) * (1 / 10) * 2)

/-- The numbers the preview route writes into the group's `translate`. -/
def previewTranslateOf (b : Box) : ℚ × ℚ :=
  (-b.minX + max (b.maxX - b.minX) (b.maxY - b.minY) * (1 / 10),
   -b.minY + max (b.maxX - b.minX) (b.maxY - b.minY) * (1 / 10))

/-- The sample document of the specification's concrete scenarios: a circle
`#a` and a rect `#b` inside a `viewBox="0 0 100 100"` root. -/
def sampleDoc : Node :=
  .element "svg" [("viewBox", "0 0 100 100")]
    [.element "circle" [("id", "a"), ("cx", "50"), ("cy", "50"), ("r", "10")] [],
     .element "rect" [("id", "b"), ("x", "0"), ("y", "0"), ("width", "10"), ("height", "10")] []]

def sampleCircle : Node :=
  .element "circle" [("id", "a"), ("cx", "50"), ("cy", "50"), ("r", "10")] []

/-- An id-capturing fragment parser: the first fragment string parses to an
`animate` element that itself carries `id="a"`. -/
def pfC2 : String → List Node := fun s =>
  if s = "<animate id=\"a\"/>" then [.element "animate" [("id", "a")] []]
  else [.element "animateTransform" [] []]

/-- A document with a `defs`, a rect `#r` and a circle `#a`. -/
def docC2 : Node :=
  .element "svg" []
    [.element "defs" [] [],
     .element "rect" [("id", "r")] [],
     .element "circle" [("id", "a")] []]

/-- A batch whose first entry injects an `id="a"` element into `#r`, and whose
second entry targets `a`. -/
def aesC2 : List AnimationElement :=
  [⟨"r", ["<animate id=\"a\"/>"]⟩, ⟨"a", ["<animateTransform/>"]⟩]

/-- What `insertAnimations pfC2 docC2 aesC2` produces: the second fragment lands
inside the freshly injected `animate` under `#r`, not under the circle `#a`. -/
def outC2 : Node :=
  .element "svg" []
    [.element "defs" [] [],
     .element "rect" [("id", "r")]
       [.element "animate" [("id", "a")] [.element "animateTransform" [] []]],
     .element "circle" [("id", "a")] []]

/-! ## Proof infrastructure -/

theorem node_rec_pair (P : Node → Prop) (Q : List Node → Prop)
    (he : ∀ t a cs, Q cs → P (.element t a cs))
    (ht : ∀ s, P (.text s))
    (hn : Q [])
    (hc : ∀ c cs, P c → Q cs → Q (c :: cs)) : (∀ n, P n) ∧ (∀ l, Q l) := by
  have hnode : ∀ n, P n := fun n =>
    @Node.rec P Q (fun t a cs h => he t a cs h) (fun s => ht s) hn
      (fun c cs hp hq => hc c cs hp hq) n
  refine ⟨hnode, ?_⟩
  intro l
  induction l with
  | nil => exact hn
  | cons c cs ih => exact hc c cs (hnode c) ih

/-! ## C10 -/

/-- C10: the utils `extractSelectedElements` is total, and on the one
internal failure its `try` block can raise over a parsed document — no
`svg` element — it returns exactly the fixed empty document
`<svg xmlns="http://www.w3.org/2000/svg"></svg>` rather than propagating a
typed error. -/
theorem c10_extract_total_fallback (doc : Node) (ids : List String)
    (h : findElem (tagP "svg") doc = none) :
    extractSelectedElements doc ids = "<svg xmlns=\"http://www.w3.org/2000/svg\"></svg>" := by
  unfold extractSelectedElements
  rw [h]
  rfl

/-- C10 witness: a document with no svg element. -/
theorem c10_extract_total_fallback_witness :
    findElem (tagP "svg") (Node.text "plain text") = none ∧
    extractSelectedElements (Node.text "plain text") ["a"] =
      "<svg xmlns=\"http://www.w3.org/2000/svg\"></svg>" :=
  ⟨rfl, c10_extract_total_fallback (Node.text "plain text") ["a"] rfl⟩

/-! ## C3 -/

/-- C3 counterexample: on the specification's own sample document with the
nonexistent selection `"c"`, the utils `extractSelectedElements` does not
fail: it silently returns a valid-but-empty SVG carrying the original root
attributes, contradicting the claim that extraction fails with a
`NoElementsFound` error for every zero-resolution selection. -/
theorem c3_counterexample :
    findElem (idP "c") sampleDoc = none ∧
    extractSelectedElements sampleDoc ["c"] =
      "<svg xmlns=\"http://www.w3.org/2000/svg\" viewBox=\"0 0 100 100\"></svg>" :=
  ⟨rfl, rfl⟩

/-- C3 (amended): the preview route fails with the
`No selected elements found` error when no selected id resolves; the
standalone utils `extractSelectedElements`, by contrast, silently returns a
valid-but-empty SVG (see the counterexample). -/
theorem c3_preview_errors_when_nothing_resolves (doc : Node) (sel : List String)
    (h : ∀ i ∈ sel, findElem (idP i) doc = none) :
    previewHandler doc sel = Except.error "No selected elements found" := by
  have hz : sel.filterMap (fun i => findElem (idP i) doc) = [] :=
    List.filterMap_eq_nil_iff.mpr h
  simp only [previewHandler, hz]
  rfl

/-- C3 witness: the sample document with the nonexistent selection `"c"`. -/
theorem c3_preview_errors_witness :
    findElem (idP "c") sampleDoc = none ∧
    previewHandler sampleDoc ["c"] = Except.error "No selected elements found" :=
  ⟨rfl, c3_preview_errors_when_nothing_resolves sampleDoc ["c"] (by decide)⟩

/-! ## Concrete-evaluation lemmas for the rational-valued pipeline.
The kernel cannot reduce `Rat` normalization, so concrete runs are
evaluated by reducing everything but the rational arithmetic (`rfl`) and
finishing with `norm_num`. -/

theorem parseFloatQ_50 : parseFloatQ "50" = some 50 :=
  Eq.trans (show parseFloatQ "50" =
    some ((1 : ℚ) * (((50 : ℕ) : ℚ) + ((0 : ℕ) : ℚ) / (10 : ℚ) ^ (0 : ℕ)) * (10 : ℚ) ^ (0 : ℤ))
    from rfl) (by norm_num)

theorem parseFloatQ_10 : parseFloatQ "10" = some 10 :=
  Eq.trans (show parseFloatQ "10" =
    some ((1 : ℚ) * (((10 : ℕ) : ℚ) + ((0 : ℕ) : ℚ) / (10 : ℚ) ^ (0 : ℕ)) * (10 : ℚ) ^ (0 : ℤ))
    from rfl) (by norm_num)

theorem parseFloatQ_0 : parseFloatQ "0" = some 0 :=
  Eq.trans (show parseFloatQ "0" =
    some ((1 : ℚ) * (((0 : ℕ) : ℚ) + ((0 : ℕ) : ℚ) / (10 : ℚ) ^ (0 : ℕ)) * (10 : ℚ) ^ (0 : ℤ))
    from rfl) (by norm_num)

theorem parseFloatQ_neg5 : parseFloatQ "-5" = some (-5) :=
  Eq.trans (show parseFloatQ "-5" =
    some ((-1 : ℚ) * (((5 : ℕ) : ℚ) + ((0 : ℕ) : ℚ) / (10 : ℚ) ^ (0 : ℕ)) * (10 : ℚ) ^ (0 : ℤ))
    from rfl) (by norm_num)

theorem boundsSampleCircle : calculateElementBounds sampleCircle = ⟨40, 40, 60, 60⟩ := by
  rw [show calculateElementBounds sampleCircle =
      finishBox (osub (parseFloatQ "50") (parseFloatQ "10"))
        (osub (parseFloatQ "50") (parseFloatQ "10"))
        (oadd (parseFloatQ "50") (parseFloatQ "10"))
        (oadd (parseFloatQ "50") (parseFloatQ "10")) from rfl,
    parseFloatQ_50, parseFloatQ_10]
  rw [show finishBox (osub (some 50) (some 10)) (osub (some 50) (some 10))
        (oadd (some 50) (some 10)) (oadd (some 50) (some 10)) =
      (⟨50 - 10, 50 - 10, 50 + 10, 50 + 10⟩ : Box) from rfl]
  have h1 : (50 : ℚ) - 10 = 40 := by norm_num
  have h2 : (50 : ℚ) + 10 = 60 := by norm_num
  rw [h1, h2]

theorem groupBoundsSampleCircle :
    calculateGroupBounds [sampleCircle] = ⟨40, 40, 60, 60⟩ := by
  rw [show calculateGroupBounds [sampleCircle] =
      finishBox (ominQ none (calculateElementBounds sampleCircle).minX)
        (ominQ none (calculateElementBounds sampleCircle).minY)
        (omaxQ none (calculateElementBounds sampleCircle).maxX)
        (omaxQ none (calculateElementBounds sampleCircle).maxY) from rfl,
    boundsSampleCircle]
  rfl

theorem calculateGroupBounds_pair_self (e : Node) :
    calculateGroupBounds [e, e] = calculateGroupBounds [e] := by
  simp only [calculateGroupBounds, groupStep, List.foldl_cons, List.foldl_nil, ominQ, omaxQ,
    min_self, max_self]

theorem previewHandler_eval (doc : Node) (sel : List String)
    (h : ¬ (sel.filterMap (fun i => findElem (idP i) doc)).length = 0) :
    previewHandler doc sel =
      Except.ok ⟨previewViewBoxOf (calculateGroupBounds (resolvedElems doc sel)),
                 previewTranslateOf (calculateGroupBounds (resolvedElems doc sel)),
                 resolvedElems doc sel⟩ := by
  simp only [previewHandler]
  rw [if_neg h]
  rfl

theorem previewViewBoxOf_sample : previewViewBoxOf ⟨40, 40, 60, 60⟩ = (0, 0, 24, 24) := by
  simp only [previewViewBoxOf, Prod.mk.injEq]
  norm_num

theorem previewTranslateOf_sample : previewTranslateOf ⟨40, 40, 60, 60⟩ = (-38, -38) := by
  simp only [previewTranslateOf, Prod.mk.injEq]
  norm_num

theorem previewSampleSingle :
    previewHandler sampleDoc ["a"] =
      Except.ok ⟨(0, 0, 24, 24), (-38, -38), [sampleCircle]⟩ := by
  rw [previewHandler_eval sampleDoc ["a"] (by decide),
    show resolvedElems sampleDoc ["a"] = [sampleCircle] from rfl,
    groupBoundsSampleCircle, previewViewBoxOf_sample, previewTranslateOf_sample]

theorem previewSampleDouble :
    previewHandler sampleDoc ["a", "a"] =
      Except.ok ⟨(0, 0, 24, 24), (-38, -38), [sampleCircle, sampleCircle]⟩ := by
  rw [previewHandler_eval sampleDoc ["a", "a"] (by decide),
    show resolvedElems sampleDoc ["a", "a"] = [sampleCircle, sampleCircle] from rfl,
    calculateGroupBounds_pair_self, groupBoundsSampleCircle,
    previewViewBoxOf_sample, previewTranslateOf_sample]

/-! ## C9 -/

/-- C9 counterexample: on the sample document, selecting `["a", "a"]` clones
the circle twice into the preview group, while `["a"]` clones it once — the
second occurrence of a duplicate id is not a no-op and the two outputs
differ. -/
theorem c9_counterexample :
    previewHandler sampleDoc ["a", "a"] =
      Except.ok ⟨(0, 0, 24, 24), (-38, -38), [sampleCircle, sampleCircle]⟩ ∧
    previewHandler sampleDoc ["a"] =
      Except.ok ⟨(0, 0, 24, 24), (-38, -38), [sampleCircle]⟩ ∧
    ([sampleCircle, sampleCircle] : List Node) ≠ [sampleCircle] :=
  ⟨previewSampleDouble, previewSampleSingle, by decide⟩

/-- C9 (amended): duplicate selection ids are not deduplicated: the preview
route appends one clone per occurrence, so an id listed twice and resolving
to `e` yields the group children `[e, e]`, and the preview differs from the
one produced by the deduplicated selection. -/
theorem c9_duplicates_not_deduplicated (doc : Node) (i : String) (e : Node)
    (pr2 pr1 : PreviewOut)
    (he : findElem (idP i) doc = some e)
    (h2 : previewHandler doc [i, i] = Except.ok pr2)
    (h1 : previewHandler doc [i] = Except.ok pr1) :
    pr2.groupChildren = [e, e] ∧ pr1.groupChildren = [e] ∧ pr2 ≠ pr1 := by
  have hf2 : List.filterMap (fun j => findElem (idP j) doc) [i, i] = [e, e] := by
    simp [List.filterMap_cons, he]
  have hf1 : List.filterMap (fun j => findElem (idP j) doc) [i] = [e] := by
    simp [List.filterMap_cons, he]
  rw [previewHandler_eval doc [i, i] (by rw [hf2]; simp)] at h2
  rw [previewHandler_eval doc [i] (by rw [hf1]; simp)] at h1
  have hc2 : pr2.groupChildren = [e, e] := by
    have := (Except.ok.inj h2).symm
    rw [this]
    simp only [resolvedElems, hf2]
  have hc1 : pr1.groupChildren = [e] := by
    have := (Except.ok.inj h1).symm
    rw [this]
    simp only [resolvedElems, hf1]
  refine ⟨hc2, hc1, ?_⟩
  intro hpp
  rw [hpp, hc1] at hc2
  exact List.noConfusion (List.cons.inj hc2).2

/-- C9 witness: the sample document with the circle id duplicated. -/
theorem c9_duplicates_not_deduplicated_witness :
    findElem (idP "a") sampleDoc = some sampleCircle ∧
    (⟨(0, 0, 24, 24), (-38, -38), [sampleCircle, sampleCircle]⟩ : PreviewOut).groupChildren =
        [sampleCircle, sampleCircle] ∧
    (⟨(0, 0, 24, 24), (-38, -38), [sampleCircle]⟩ : PreviewOut).groupChildren = [sampleCircle] ∧
    (⟨(0, 0, 24, 24), (-38, -38), [sampleCircle, sampleCircle]⟩ : PreviewOut) ≠
      ⟨(0, 0, 24, 24), (-38, -38), [sampleCircle]⟩ := by
  refine ⟨rfl, ?_⟩
  exact c9_duplicates_not_deduplicated sampleDoc "a" sampleCircle
    ⟨(0, 0, 24, 24), (-38, -38), [sampleCircle, sampleCircle]⟩
    ⟨(0, 0, 24, 24), (-38, -38), [sampleCircle]⟩ rfl previewSampleDouble previewSampleSingle

/-! ## C4 -/

/-- C4 counterexample: the claim's viewBox formula
`(minX−padding) (minY−padding) (width+2·padding) (height+2·padding)` would
give `38 38 24 24` for the sample circle (bounds `40,40,60,60`, padding
`2`), but the route writes `0 0 24 24` — it starts the viewBox at the
origin and instead translates the group by `(padding−minX, padding−minY)`. -/
theorem c4_counterexample :
    previewHandler sampleDoc ["a"] =
      Except.ok ⟨(0, 0, 24, 24), (-38, -38), [sampleCircle]⟩ ∧
    calculateGroupBounds [sampleCircle] = ⟨40, 40, 60, 60⟩ ∧
    ((0 : ℚ), (0 : ℚ), (24 : ℚ), (24 : ℚ)) ≠
      ((40 : ℚ) - 2, (40 : ℚ) - 2, (20 : ℚ) + 2 * 2, (20 : ℚ) + 2 * 2) :=
  ⟨previewSampleSingle, groupBoundsSampleCircle, by norm_num⟩

/-- C4 (amended): width, height and padding are derived as the claim says,
but the returned viewBox is `0 0 s s` with
`s = max(width, height) + 2·padding`, and the selection is wrapped in a
group translated by `(padding − minX, padding − minY)`. -/
theorem c4_preview_viewbox_amended (doc : Node) (sel : List String) (pr : PreviewOut)
    (h : previewHandler doc sel = Except.ok pr) :
    pr.viewBox = previewViewBoxOf (calculateGroupBounds (resolvedElems doc sel)) ∧
    pr.translate = previewTranslateOf (calculateGroupBounds (resolvedElems doc sel)) ∧
    pr.groupChildren = resolvedElems doc sel := by
  by_cases hz : (sel.filterMap (fun i => findElem (idP i) doc)).length = 0
  · simp only [previewHandler] at h
    rw [if_pos hz] at h
    exact absurd h (by simp)
  · rw [previewHandler_eval doc sel hz] at h
    have := (Except.ok.inj h).symm
    rw [this]
    exact ⟨rfl, rfl, rfl⟩

/-- C4 witness: the sample document with selection `["a"]`. -/
theorem c4_preview_viewbox_amended_witness :
    (⟨(0, 0, 24, 24), (-38, -38), [sampleCircle]⟩ : PreviewOut).viewBox =
      previewViewBoxOf (calculateGroupBounds (resolvedElems sampleDoc ["a"])) ∧
    (⟨(0, 0, 24, 24), (-38, -38), [sampleCircle]⟩ : PreviewOut).translate =
      previewTranslateOf (calculateGroupBounds (resolvedElems sampleDoc ["a"])) ∧
    (⟨(0, 0, 24, 24), (-38, -38), [sampleCircle]⟩ : PreviewOut).groupChildren =
      resolvedElems sampleDoc ["a"] :=
  c4_preview_viewbox_amended sampleDoc ["a"]
    ⟨(0, 0, 24, 24), (-38, -38), [sampleCircle]⟩ previewSampleSingle

/-! ## C5 -/

/-- C5 (code bug): on the complete, balanced document
`<?xml version="1.0"?><svg></svg>` the three presence checks hold and the
markup tags balance (one `<svg>` opening tag, one `</svg>` closing tag),
yet `verifyCompleteSvg` returns `false`: its opening-tag regex
`<[^\/][^>]*>` also matches the XML declaration (which does not end in
`/>`), so the open count is 2 against a close count of 1, and every
complete declared document is rejected as incomplete. -/
theorem c5_verify_rejects_balanced_document :
    verifyCompleteSvg "<?xml version=\"1.0\"?><svg></svg>" = false ∧
    hasXmlDecl ("<?xml version=\"1.0\"?><svg></svg>").data = true ∧
    hasOpenSvgTag ("<?xml version=\"1.0\"?><svg></svg>").data = true ∧
    hasCloseSvgTag ("<?xml version=\"1.0\"?><svg></svg>").data = true ∧
    countOpenTags "<?xml version=\"1.0\"?><svg></svg>" = 2 ∧
    countCloseTags "<?xml version=\"1.0\"?><svg></svg>" = 1 := by
  refine ⟨rfl, rfl, rfl, rfl, rfl, rfl⟩

/-! ## C7: fold invariants for the bounds functions -/

theorem pairInv_step (p : Option ℚ × Option ℚ) (v : ℚ) (h : pairInv p) :
    pairInv (ominQ p.1 v, omaxQ p.2 v) := by
  rcases h with ⟨h1, h2⟩ | ⟨a, b, h1, h2, hab⟩
  · right; exact ⟨v, v, by simp [ominQ, h1], by simp [omaxQ, h2], le_refl v⟩
  · right
    refine ⟨min a v, max b v, by simp [ominQ, h1], by simp [omaxQ, h2], ?_⟩
    exact le_trans (min_le_left a v) (le_trans hab (le_max_left b v))

theorem foldPathGo_inv :
    ∀ (nums : List ℚ) (i : Nat) (xs ys : Option ℚ × Option ℚ),
      pairInv xs → pairInv ys →
      pairInv (foldPathGo i nums xs ys).1 ∧ pairInv (foldPathGo i nums xs ys).2 := by
  intro nums
  induction nums with
  | nil => intro i xs ys hx hy; exact ⟨hx, hy⟩
  | cons n rest ih =>
    intro i xs ys hx hy
    simp only [foldPathGo]
    by_cases h2 : i % 2 = 0
    · rw [if_pos h2]
      exact ih (i + 1) _ _ (pairInv_step xs n hx) hy
    · rw [if_neg h2]
      exact ih (i + 1) _ _ hx (pairInv_step ys n hy)

theorem coordStep_inv (e : Node) (st : (Option ℚ × Option ℚ) × (Option ℚ × Option ℚ))
    (attr : String) (hx : pairInv st.1) (hy : pairInv st.2) :
    pairInv (coordStep e st attr).1 ∧ pairInv (coordStep e st attr).2 := by
  unfold coordStep
  match parseFloatQ (attrOrZero e attr) with
  | none => exact ⟨hx, hy⟩
  | some v =>
    by_cases hc : attr.data.contains 'x'
    · simp only [hc, if_true]
      exact ⟨pairInv_step st.1 v hx, hy⟩
    · simp only [hc, if_false]
      exact ⟨hx, pairInv_step st.2 v hy⟩

theorem coordFold_inv (e : Node) :
    pairInv (coordFold e).1 ∧ pairInv (coordFold e).2 := by
  unfold coordFold
  have : ∀ (l : List String) (st : (Option ℚ × Option ℚ) × (Option ℚ × Option ℚ)),
      pairInv st.1 → pairInv st.2 →
      pairInv (l.foldl (coordStep e) st).1 ∧ pairInv (l.foldl (coordStep e) st).2 := by
    intro l
    induction l with
    | nil => intro st hx hy; exact ⟨hx, hy⟩
    | cons a rest ih =>
      intro st hx hy
      simp only [List.foldl_cons]
      have h := coordStep_inv e st a hx hy
      exact ih _ h.1 h.2
  exact this coordAttrNames _ (Or.inl ⟨rfl, rfl⟩) (Or.inl ⟨rfl, rfl⟩)

theorem finishBox_ordered (xp yp : Option ℚ × Option ℚ)
    (hx : pairInv xp) (hy : pairInv yp) :
    (finishBox xp.1 yp.1 xp.2 yp.2).minX ≤ (finishBox xp.1 yp.1 xp.2 yp.2).maxX ∧
    (finishBox xp.1 yp.1 xp.2 yp.2).minY ≤ (finishBox xp.1 yp.1 xp.2 yp.2).maxY := by
  rcases hx with ⟨hx1, hx2⟩ | ⟨a, b, hx1, hx2, hab⟩ <;>
    rcases hy with ⟨hy1, hy2⟩ | ⟨c, d, hy1, hy2, hcd⟩ <;>
      simp only [hx1, hx2, hy1, hy2, finishBox, defaultBox] <;> norm_num
  exact ⟨hab, hcd⟩

theorem coordFold_zero (e : Node) (h : ∀ k, attrOrZero e k = "0") :
    coordFold e = ((some 0, some 0), (some 0, some 0)) := by
  simp [coordFold, coordAttrNames, List.foldl_cons, List.foldl_nil, coordStep, h,
    parseFloatQ_0,
    show ("x".data.contains 'x') = true from rfl,
    show ("y".data.contains 'x') = false from rfl,
    show ("x1".data.contains 'x') = true from rfl,
    show ("y1".data.contains 'x') = false from rfl,
    show ("x2".data.contains 'x') = true from rfl,
    show ("y2".data.contains 'x') = false from rfl,
    show ("cx".data.contains 'x') = true from rfl,
    show ("cy".data.contains 'x') = false from rfl,
    ominQ, omaxQ, min_self, max_self]

theorem defaultBox_ordered :
    defaultBox.minX ≤ defaultBox.maxX ∧ defaultBox.minY ≤ defaultBox.maxY := by
  norm_num [defaultBox]

theorem calculateElementBounds_circle (e : Node)
    (h : lowerString (nodeTag e) = "circle") :
    calculateElementBounds e =
      finishBox (osub (parseFloatQ (attrOrZero e "cx")) (parseFloatQ (attrOrZero e "r")))
        (osub (parseFloatQ (attrOrZero e "cy")) (parseFloatQ (attrOrZero e "r")))
        (oadd (parseFloatQ (attrOrZero e "cx")) (parseFloatQ (attrOrZero e "r")))
        (oadd (parseFloatQ (attrOrZero e "cy")) (parseFloatQ (attrOrZero e "r"))) := by
  simp [calculateElementBounds, h]

theorem calculateElementBounds_rect (e : Node)
    (h : lowerString (nodeTag e) = "rect") :
    calculateElementBounds e =
      finishBox (parseFloatQ (attrOrZero e "x"))
        (parseFloatQ (attrOrZero e "y"))
        (oadd (parseFloatQ (attrOrZero e "x")) (parseFloatQ (attrOrZero e "width")))
        (oadd (parseFloatQ (attrOrZero e "y")) (parseFloatQ (attrOrZero e "height"))) := by
  simp [calculateElementBounds, h]

theorem calculateElementBounds_path (e : Node)
    (h : lowerString (nodeTag e) = "path") :
    calculateElementBounds e =
      finishBox (foldPathGo 0 (scanPathNums (attrOrEmpty e "d")) (none, none) (none, none)).1.1
        (foldPathGo 0 (scanPathNums (attrOrEmpty e "d")) (none, none) (none, none)).2.1
        (foldPathGo 0 (scanPathNums (attrOrEmpty e "d")) (none, none) (none, none)).1.2
        (foldPathGo 0 (scanPathNums (attrOrEmpty e "d")) (none, none) (none, none)).2.2 := by
  simp [calculateElementBounds, h]

theorem calculateElementBounds_default (e : Node)
    (h1 : lowerString (nodeTag e) ≠ "circle")
    (h2 : lowerString (nodeTag e) ≠ "rect")
    (h3 : lowerString (nodeTag e) ≠ "path") :
    calculateElementBounds e =
      finishBox (coordFold e).1.1 (coordFold e).2.1 (coordFold e).1.2 (coordFold e).2.2 := by
  simp [calculateElementBounds, beq_eq_false_iff_ne.mpr h1, beq_eq_false_iff_ne.mpr h2,
    beq_eq_false_iff_ne.mpr h3]

/-- C7 (amended): `bounds` returns the fixed default box on a path element
whose `d` attribute yields no numeric tokens (and, in general, whenever a
non-finite min/max survives to the guard); an element of any other
non-circle/non-rect tag with no attributes instead yields the degenerate box
`(0,0,0,0)`, because missing attributes are read as `'0'`; the returned box
always has finite coordinates (the guard replaces any non-finite value by
the default box); and `minX ≤ maxX ∧ minY ≤ maxY` holds unconditionally for
path and attribute-scanned elements, and for circle (resp. rect) whenever
the parsed radius (resp. width and height) is nonnegative — a negative
radius or size violates it (see the counterexample). -/
theorem c7_bounds_degenerate_amended (e : Node) :
    (lowerString (nodeTag e) = "path" → scanPathNums (attrOrEmpty e "d") = [] →
      calculateElementBounds e = defaultBox) ∧
    (lowerString (nodeTag e) ≠ "circle" → lowerString (nodeTag e) ≠ "rect" →
      lowerString (nodeTag e) ≠ "path" → nodeAttrs e = [] →
      calculateElementBounds e = ⟨0, 0, 0, 0⟩) ∧
    ((lowerString (nodeTag e) = "path" ∨
        (lowerString (nodeTag e) ≠ "circle" ∧ lowerString (nodeTag e) ≠ "rect")) →
      (calculateElementBounds e).minX ≤ (calculateElementBounds e).maxX ∧
      (calculateElementBounds e).minY ≤ (calculateElementBounds e).maxY) ∧
    (∀ q, lowerString (nodeTag e) = "circle" →
      parseFloatQ (attrOrZero e "r") = some q → 0 ≤ q →
      (calculateElementBounds e).minX ≤ (calculateElementBounds e).maxX ∧
      (calculateElementBounds e).minY ≤ (calculateElementBounds e).maxY) ∧
    (∀ w h, lowerString (nodeTag e) = "rect" →
      parseFloatQ (attrOrZero e "width") = some w →
      parseFloatQ (attrOrZero e "height") = some h → 0 ≤ w → 0 ≤ h →
      (calculateElementBounds e).minX ≤ (calculateElementBounds e).maxX ∧
      (calculateElementBounds e).minY ≤ (calculateElementBounds e).maxY) := by
  have hordPath : lowerString (nodeTag e) = "path" →
      (calculateElementBounds e).minX ≤ (calculateElementBounds e).maxX ∧
      (calculateElementBounds e).minY ≤ (calculateElementBounds e).maxY := by
    intro hp
    rw [calculateElementBounds_path e hp]
    have hinv := foldPathGo_inv (scanPathNums (attrOrEmpty e "d")) 0 (none, none)
      (none, none) (Or.inl ⟨rfl, rfl⟩) (Or.inl ⟨rfl, rfl⟩)
    exact finishBox_ordered _ _ hinv.1 hinv.2
  refine ⟨?_, ?_, ?_, ?_, ?_⟩
  · intro hp hd
    rw [calculateElementBounds_path e hp, hd]
    rfl
  · intro h1 h2 h3 hattrs
    rw [calculateElementBounds_default e h1 h2 h3]
    have hz : ∀ k, attrOrZero e k = "0" := by
      intro k
      cases e with
      | text s => rfl
      | element t a cs =>
        have : a = [] := hattrs
        subst this
        rfl
    rw [coordFold_zero e hz]
    rfl
  · intro hcase
    rcases hcase with hp | ⟨h1, h2⟩
    · exact hordPath hp
    · by_cases hp2 : lowerString (nodeTag e) = "path"
      · exact hordPath hp2
      · rw [calculateElementBounds_default e h1 h2 hp2]
        have hinv := coordFold_inv e
        exact finishBox_ordered _ _ hinv.1 hinv.2
  · intro q hcir hr hq
    rw [calculateElementBounds_circle e hcir, hr]
    cases hcx : parseFloatQ (attrOrZero e "cx") with
    | none =>
      simp only [osub, oadd, finishBox]
      exact defaultBox_ordered
    | some cx =>
      cases hcy : parseFloatQ (attrOrZero e "cy") with
      | none =>
        simp only [osub, oadd, finishBox]
        exact defaultBox_ordered
      | some cy =>
        simp only [osub, oadd, finishBox]
        constructor <;> linarith
  · intro w h hrect hw hh hw0 hh0
    rw [calculateElementBounds_rect e hrect, hw, hh]
    cases hx : parseFloatQ (attrOrZero e "x") with
    | none =>
      simp only [osub, oadd, finishBox]
      exact defaultBox_ordered
    | some x =>
      cases hy : parseFloatQ (attrOrZero e "y") with
      | none =>
        simp only [osub, oadd, finishBox]
        exact defaultBox_ordered
      | some y =>
        simp only [osub, oadd, finishBox]
        constructor <;> linarith

/-- C7 counterexample: a `g` element with no attributes yields the
degenerate box `(0,0,0,0)`, not the fixed default box — missing attributes
parse as 0; and a circle with negative radius `-5` yields
`minX = 5 > maxX = -5`, violating the claimed ordering invariant. -/
theorem c7_counterexample :
    calculateElementBounds (.element "g" [] []) = ⟨0, 0, 0, 0⟩ ∧
    (⟨0, 0, 0, 0⟩ : Box) ≠ defaultBox ∧
    calculateElementBounds (.element "circle" [("r", "-5")] []) = ⟨5, 5, -5, -5⟩ ∧
    ¬ ((5 : ℚ) ≤ (-5 : ℚ)) := by
  refine ⟨?_, by norm_num [defaultBox, Box.mk.injEq], ?_, by norm_num⟩
  · exact (c7_bounds_degenerate_amended (.element "g" [] [])).2.1
      (by decide) (by decide) (by decide) rfl
  · rw [calculateElementBounds_circle (.element "circle" [("r", "-5")] []) (by decide),
      show attrOrZero (.element "circle" [("r", "-5")] []) "cx" = "0" from rfl,
      show attrOrZero (.element "circle" [("r", "-5")] []) "cy" = "0" from rfl,
      show attrOrZero (.element "circle" [("r", "-5")] []) "r" = "-5" from rfl,
      parseFloatQ_0, parseFloatQ_neg5]
    simp only [osub, oadd, finishBox]
    norm_num [Box.mk.injEq]

/-- C7 witness: the degenerate path and the attribute-less `g` element. -/
theorem c7_bounds_degenerate_amended_witness :
    calculateElementBounds (.element "path" [] []) = defaultBox ∧
    calculateElementBounds (.element "g" [] []) = ⟨0, 0, 0, 0⟩ ∧
    ((calculateElementBounds (.element "g" [] [])).minX ≤
        (calculateElementBounds (.element "g" [] [])).maxX ∧
      (calculateElementBounds (.element "g" [] [])).minY ≤
        (calculateElementBounds (.element "g" [] [])).maxY) :=
  ⟨(c7_bounds_degenerate_amended (.element "path" [] [])).1 rfl rfl,
   (c7_bounds_degenerate_amended (.element "g" [] [])).2.1
     (by decide) (by decide) (by decide) rfl,
   (c7_bounds_degenerate_amended (.element "g" [] [])).2.2.1
     (Or.inr ⟨by decide, by decide⟩)⟩

/-! ## C8 -/

theorem ominQ_isSome (a : Option ℚ) (v : ℚ) : (ominQ a v).isSome := by
  cases a <;> rfl

theorem omaxQ_isSome (a : Option ℚ) (v : ℚ) : (omaxQ a v).isSome := by
  cases a <;> rfl

theorem groupFold_preserves_some :
    ∀ (es : List Node) (st : (Option ℚ × Option ℚ) × (Option ℚ × Option ℚ)),
      st.1.1.isSome → st.1.2.isSome → st.2.1.isSome → st.2.2.isSome →
      (es.foldl groupStep st).1.1.isSome ∧ (es.foldl groupStep st).1.2.isSome ∧
      (es.foldl groupStep st).2.1.isSome ∧ (es.foldl groupStep st).2.2.isSome := by
  intro es
  induction es with
  | nil => intro st h1 h2 h3 h4; exact ⟨h1, h2, h3, h4⟩
  | cons hd tl ih =>
    intro st _ _ _ _
    rw [List.foldl_cons]
    exact ih (groupStep st hd) (ominQ_isSome _ _) (omaxQ_isSome _ _)
      (ominQ_isSome _ _) (omaxQ_isSome _ _)

theorem groupFold_some_of_ne_nil (es : List Node)
    (st : (Option ℚ × Option ℚ) × (Option ℚ × Option ℚ)) (h : es ≠ []) :
    (es.foldl groupStep st).1.1.isSome ∧ (es.foldl groupStep st).1.2.isSome ∧
    (es.foldl groupStep st).2.1.isSome ∧ (es.foldl groupStep st).2.2.isSome := by
  cases es with
  | nil => exact absurd rfl h
  | cons hd tl =>
    rw [List.foldl_cons]
    exact groupFold_preserves_some tl (groupStep st hd) (ominQ_isSome _ _)
      (omaxQ_isSome _ _) (ominQ_isSome _ _) (omaxQ_isSome _ _)

theorem groupStep_self (st : (Option ℚ × Option ℚ) × (Option ℚ × Option ℚ)) (e : Node) :
    (∃ q, (groupStep st e).1.1 = some q ∧ q ≤ (calculateElementBounds e).minX) ∧
    (∃ q, (groupStep st e).1.2 = some q ∧ (calculateElementBounds e).maxX ≤ q) ∧
    (∃ q, (groupStep st e).2.1 = some q ∧ q ≤ (calculateElementBounds e).minY) ∧
    (∃ q, (groupStep st e).2.2 = some q ∧ (calculateElementBounds e).maxY ≤ q) := by
  refine ⟨?_, ?_, ?_, ?_⟩
  · cases h : st.1.1 with
    | none => exact ⟨_, by simp [groupStep, ominQ, h], le_refl _⟩
    | some a => exact ⟨_, by simp [groupStep, ominQ, h], min_le_right a _⟩
  · cases h : st.1.2 with
    | none => exact ⟨_, by simp [groupStep, omaxQ, h], le_refl _⟩
    | some a => exact ⟨_, by simp [groupStep, omaxQ, h], le_max_right a _⟩
  · cases h : st.2.1 with
    | none => exact ⟨_, by simp [groupStep, ominQ, h], le_refl _⟩
    | some a => exact ⟨_, by simp [groupStep, ominQ, h], min_le_right a _⟩
  · cases h : st.2.2 with
    | none => exact ⟨_, by simp [groupStep, omaxQ, h], le_refl _⟩
    | some a => exact ⟨_, by simp [groupStep, omaxQ, h], le_max_right a _⟩

theorem groupFold_le_preserve (b : Box) :
    ∀ (es : List Node) (st : (Option ℚ × Option ℚ) × (Option ℚ × Option ℚ)),
      (∃ q, st.1.1 = some q ∧ q ≤ b.minX) → (∃ q, st.1.2 = some q ∧ b.maxX ≤ q) →
      (∃ q, st.2.1 = some q ∧ q ≤ b.minY) → (∃ q, st.2.2 = some q ∧ b.maxY ≤ q) →
      (∃ q, (es.foldl groupStep st).1.1 = some q ∧ q ≤ b.minX) ∧
      (∃ q, (es.foldl groupStep st).1.2 = some q ∧ b.maxX ≤ q) ∧
      (∃ q, (es.foldl groupStep st).2.1 = some q ∧ q ≤ b.minY) ∧
      (∃ q, (es.foldl groupStep st).2.2 = some q ∧ b.maxY ≤ q) := by
  intro es
  induction es with
  | nil => intro st h1 h2 h3 h4; exact ⟨h1, h2, h3, h4⟩
  | cons hd tl ih =>
    intro st h1 h2 h3 h4
    rw [List.foldl_cons]
    obtain ⟨q1, hq1, hle1⟩ := h1
    obtain ⟨q2, hq2, hle2⟩ := h2
    obtain ⟨q3, hq3, hle3⟩ := h3
    obtain ⟨q4, hq4, hle4⟩ := h4
    refine ih (groupStep st hd) ?_ ?_ ?_ ?_
    · exact ⟨min q1 (calculateElementBounds hd).minX, by simp [groupStep, ominQ, hq1],
        le_trans (min_le_left q1 _) hle1⟩
    · exact ⟨max q2 (calculateElementBounds hd).maxX, by simp [groupStep, omaxQ, hq2],
        le_trans hle2 (le_max_left q2 _)⟩
    · exact ⟨min q3 (calculateElementBounds hd).minY, by simp [groupStep, ominQ, hq3],
        le_trans (min_le_left q3 _) hle3⟩
    · exact ⟨max q4 (calculateElementBounds hd).maxY, by simp [groupStep, omaxQ, hq4],
        le_trans hle4 (le_max_left q4 _)⟩

theorem groupFold_mem (e : Node) :
    ∀ (es : List Node) (st : (Option ℚ × Option ℚ) × (Option ℚ × Option ℚ)), e ∈ es →
      (∃ q, (es.foldl groupStep st).1.1 = some q ∧ q ≤ (calculateElementBounds e).minX) ∧
      (∃ q, (es.foldl groupStep st).1.2 = some q ∧ (calculateElementBounds e).maxX ≤ q) ∧
      (∃ q, (es.foldl groupStep st).2.1 = some q ∧ q ≤ (calculateElementBounds e).minY) ∧
      (∃ q, (es.foldl groupStep st).2.2 = some q ∧ (calculateElementBounds e).maxY ≤ q) := by
  intro es
  induction es with
  | nil => intro st h; exact absurd h (List.not_mem_nil e)
  | cons hd tl ih =>
    intro st hmem
    rw [List.foldl_cons]
    rcases List.mem_cons.mp hmem with heq | htl
    · subst heq
      have h := groupStep_self st e
      exact groupFold_le_preserve (calculateElementBounds e) tl (groupStep st e)
        h.1 h.2.1 h.2.2.1 h.2.2.2
    · exact ih (groupStep st hd) htl

theorem groupFold_above (b : Box) :
    ∀ (es : List Node) (st : (Option ℚ × Option ℚ) × (Option ℚ × Option ℚ)),
      (∀ e ∈ es, boxContains b (calculateElementBounds e)) →
      (∀ q, st.1.1 = some q → b.minX ≤ q) → (∀ q, st.1.2 = some q → q ≤ b.maxX) →
      (∀ q, st.2.1 = some q → b.minY ≤ q) → (∀ q, st.2.2 = some q → q ≤ b.maxY) →
      (∀ q, (es.foldl groupStep st).1.1 = some q → b.minX ≤ q) ∧
      (∀ q, (es.foldl groupStep st).1.2 = some q → q ≤ b.maxX) ∧
      (∀ q, (es.foldl groupStep st).2.1 = some q → b.minY ≤ q) ∧
      (∀ q, (es.foldl groupStep st).2.2 = some q → q ≤ b.maxY) := by
  intro es
  induction es with
  | nil => intro st _ h1 h2 h3 h4; exact ⟨h1, h2, h3, h4⟩
  | cons hd tl ih =>
    intro st hmem h1 h2 h3 h4
    rw [List.foldl_cons]
    have hb := hmem hd (List.mem_cons_self hd tl)
    obtain ⟨hb1, hb2, hb3, hb4⟩ := hb
    refine ih (groupStep st hd) (fun e he => hmem e (List.mem_cons_of_mem hd he)) ?_ ?_ ?_ ?_
    · intro q hq
      cases hst : st.1.1 with
      | none =>
        simp [groupStep, ominQ, hst] at hq
        rw [← hq]; exact hb1
      | some a =>
        simp [groupStep, ominQ, hst] at hq
        rw [← hq]; exact le_min (h1 a hst) hb1
    · intro q hq
      cases hst : st.1.2 with
      | none =>
        simp [groupStep, omaxQ, hst] at hq
        rw [← hq]; exact hb3
      | some a =>
        simp [groupStep, omaxQ, hst] at hq
        rw [← hq]; exact max_le (h2 a hst) hb3
    · intro q hq
      cases hst : st.2.1 with
      | none =>
        simp [groupStep, ominQ, hst] at hq
        rw [← hq]; exact hb2
      | some a =>
        simp [groupStep, ominQ, hst] at hq
        rw [← hq]; exact le_min (h3 a hst) hb2
    · intro q hq
      cases hst : st.2.2 with
      | none =>
        simp [groupStep, omaxQ, hst] at hq
        rw [← hq]; exact hb4
      | some a =>
        simp [groupStep, omaxQ, hst] at hq
        rw [← hq]; exact max_le (h4 a hst) hb4

/-- For a nonempty element list, the fold state is fully set and the group
box is exactly its four components. -/
theorem calculateGroupBounds_of_ne_nil (es : List Node) (h : es ≠ []) :
    ∃ q1 q2 q3 q4,
      (es.foldl groupStep ((none, none), (none, none))).1.1 = some q1 ∧
      (es.foldl groupStep ((none, none), (none, none))).1.2 = some q2 ∧
      (es.foldl groupStep ((none, none), (none, none))).2.1 = some q3 ∧
      (es.foldl groupStep ((none, none), (none, none))).2.2 = some q4 ∧
      calculateGroupBounds es = ⟨q1, q3, q2, q4⟩ := by
  obtain ⟨h1, h2, h3, h4⟩ := groupFold_some_of_ne_nil es ((none, none), (none, none)) h
  obtain ⟨q1, hq1⟩ := Option.isSome_iff_exists.mp h1
  obtain ⟨q2, hq2⟩ := Option.isSome_iff_exists.mp h2
  obtain ⟨q3, hq3⟩ := Option.isSome_iff_exists.mp h3
  obtain ⟨q4, hq4⟩ := Option.isSome_iff_exists.mp h4
  refine ⟨q1, q2, q3, q4, hq1, hq2, hq3, hq4, ?_⟩
  simp only [calculateGroupBounds, hq1, hq2, hq3, hq4, finishBox]

/-- Every member's box is contained in the group box. -/
theorem calculateGroupBounds_mem (es : List Node) (e : Node) (he : e ∈ es) :
    boxContains (calculateGroupBounds es) (calculateElementBounds e) := by
  have hne : es ≠ [] := by
    intro h; rw [h] at he; exact absurd he (List.not_mem_nil e)
  obtain ⟨q1, q2, q3, q4, hq1, hq2, hq3, hq4, hbox⟩ := calculateGroupBounds_of_ne_nil es hne
  obtain ⟨⟨a1, ha1, hle1⟩, ⟨a2, ha2, hle2⟩, ⟨a3, ha3, hle3⟩, ⟨a4, ha4, hle4⟩⟩ :=
    groupFold_mem e es ((none, none), (none, none)) he
  rw [hq1] at ha1; rw [hq2] at ha2; rw [hq3] at ha3; rw [hq4] at ha4
  cases Option.some.inj ha1
  cases Option.some.inj ha2
  cases Option.some.inj ha3
  cases Option.some.inj ha4
  rw [hbox]
  exact ⟨hle1, hle3, hle2, hle4⟩

/-- C8 (amended): `calculateGroupBounds` is monotone for nonempty subsets:
if every element of the nonempty list `S` occurs in `T`, the box of `T`
contains the box of `S`.  For empty (or entirely unresolved) `S` the claim
fails: the degenerate default box `0 0 100 100` need not be contained in
the box of `T` (see the counterexample). -/
theorem c8_groupBounds_monotone (S T : List Node) (hne : S ≠ [])
    (hsub : ∀ e ∈ S, e ∈ T) :
    boxContains (calculateGroupBounds T) (calculateGroupBounds S) := by
  have hS : ∀ e ∈ S, boxContains (calculateGroupBounds T) (calculateElementBounds e) :=
    fun e he => calculateGroupBounds_mem T e (hsub e he)
  obtain ⟨q1, q2, q3, q4, hq1, hq2, hq3, hq4, hbox⟩ := calculateGroupBounds_of_ne_nil S hne
  obtain ⟨g1, g2, g3, g4⟩ := groupFold_above (calculateGroupBounds T) S
    ((none, none), (none, none)) hS
    (fun q hq => by exact absurd hq (by simp))
    (fun q hq => by exact absurd hq (by simp))
    (fun q hq => by exact absurd hq (by simp))
    (fun q hq => by exact absurd hq (by simp))
  rw [hbox]
  exact ⟨g1 q1 hq1, g3 q3 hq3, g2 q2 hq2, g4 q4 hq4⟩

/-- C8 counterexample: with `S = []` (which is a subset of every list) and
`T = [circle #a]`, the box of `S` is the degenerate default `0 0 100 100`,
which is not contained in `T`'s box `40 40 60 60` — monotonicity fails in
exactly the empty/degenerate case the claim includes. -/
theorem c8_counterexample :
    calculateGroupBounds ([] : List Node) = defaultBox ∧
    calculateGroupBounds [sampleCircle] = ⟨40, 40, 60, 60⟩ ∧
    ¬ boxContains (calculateGroupBounds [sampleCircle]) (calculateGroupBounds []) := by
  refine ⟨rfl, groupBoundsSampleCircle, ?_⟩
  rw [groupBoundsSampleCircle, show calculateGroupBounds ([] : List Node) = defaultBox from rfl]
  norm_num [boxContains, defaultBox]

/-- C8 witness: the singleton circle inside the two-element list. -/
theorem c8_groupBounds_monotone_witness :
    ([sampleCircle] : List Node) ≠ [] ∧
    boxContains
      (calculateGroupBounds
        [sampleCircle,
         .element "rect" [("id", "b"), ("x", "0"), ("y", "0"), ("width", "10"), ("height", "10")] []])
      (calculateGroupBounds [sampleCircle]) :=
  ⟨by decide,
   c8_groupBounds_monotone [sampleCircle]
     [sampleCircle,
      .element "rect" [("id", "b"), ("x", "0"), ("y", "0"), ("width", "10"), ("height", "10")] []]
     (by decide) (by decide)⟩

/-! ## C1: the splice simulation -/

theorem spliceSim_refl_pair (S : List String) :
    (∀ n, SpliceSim S n n) ∧ (∀ l, SpliceSimL S l l) :=
  node_rec_pair (fun n => SpliceSim S n n) (fun l => SpliceSimL S l l)
    (fun t a _ h => SpliceSim.elem t a h)
    (fun s => SpliceSim.text s)
    SpliceSimL.nil
    (fun _ _ hc hcs => SpliceSimL.cons hc hcs)

theorem spliceSim_refl (S : List String) (n : Node) : SpliceSim S n n :=
  (spliceSim_refl_pair S).1 n

theorem spliceSimL_refl (S : List String) (l : List Node) : SpliceSimL S l l :=
  (spliceSim_refl_pair S).2 l

theorem spliceSimL_append_split (S : List String) :
    ∀ (xs ys zs : List Node), SpliceSimL S (xs ++ ys) zs →
      ∃ zs1 zs2, zs = zs1 ++ zs2 ∧ SpliceSimL S xs zs1 ∧ SpliceSimL S ys zs2 := by
  intro xs
  induction xs with
  | nil =>
    intro ys zs h
    exact ⟨[], zs, rfl, SpliceSimL.nil, by simpa using h⟩
  | cons x xs ih =>
    intro ys zs h
    rw [List.cons_append] at h
    cases h with
    | cons hx hrest =>
      obtain ⟨zs1, zs2, rfl, h1, h2⟩ := ih ys _ hrest
      exact ⟨_ :: zs1, zs2, rfl, SpliceSimL.cons hx h1, h2⟩

theorem spliceSim_trans_pair (S : List String) :
    (∀ a, ∀ b c, SpliceSim S a b → SpliceSim S b c → SpliceSim S a c) ∧
    (∀ l, ∀ m k, SpliceSimL S l m → SpliceSimL S m k → SpliceSimL S l k) := by
  refine node_rec_pair
    (fun a => ∀ b c, SpliceSim S a b → SpliceSim S b c → SpliceSim S a c)
    (fun l => ∀ m k, SpliceSimL S l m → SpliceSimL S m k → SpliceSimL S l k)
    ?_ ?_ ?_ ?_
  · intro t a cs hQ b c h1 h2
    cases h1
    case elem =>
      rename_i cs1 h1l
      cases h2
      case elem =>
        rename_i cs2 h2l
        exact SpliceSim.elem t a (hQ _ _ h1l h2l)
      case elemApp =>
        rename_i cs2 e2 hid h2l
        exact SpliceSim.elemApp t a hid (hQ _ _ h1l h2l)
    case elemApp =>
      rename_i cs1 e1 hid h1l
      cases h2
      case elem =>
        rename_i cs2 h2l
        obtain ⟨zs1, zs2, rfl, hz1, _⟩ := spliceSimL_append_split S cs1 e1 cs2 h2l
        exact SpliceSim.elemApp t a hid (hQ _ _ h1l hz1)
      case elemApp =>
        rename_i cs2 e2 hid2 h2l
        obtain ⟨zs1, zs2, rfl, hz1, _⟩ := spliceSimL_append_split S cs1 e1 cs2 h2l
        rw [List.append_assoc]
        exact SpliceSim.elemApp t a hid (hQ _ _ h1l hz1)
  · intro s b c h1 h2
    cases h1
    cases h2
    exact SpliceSim.text s
  · intro m k h1 h2
    cases h1
    cases h2
    exact SpliceSimL.nil
  · intro c cs hP hQ m k h1 h2
    cases h1 with
    | cons hc1 hcs1 =>
      cases h2 with
      | cons hc2 hcs2 => exact SpliceSimL.cons (hP _ _ hc1 hc2) (hQ _ _ hcs1 hcs2)

theorem spliceSim_trans (S : List String) {a b c : Node}
    (h1 : SpliceSim S a b) (h2 : SpliceSim S b c) : SpliceSim S a c :=
  (spliceSim_trans_pair S).1 a b c h1 h2

theorem spliceSim_modElem (S : List String) (i : String) (hi : i ∈ S) (ns : List Node) :
    (∀ n, SpliceSim S n (modElem (idP i) (appendChildren ns) n)) ∧
    (∀ l, SpliceSimL S l (modElemL (idP i) (appendChildren ns) l)) := by
  refine node_rec_pair
    (fun n => SpliceSim S n (modElem (idP i) (appendChildren ns) n))
    (fun l => SpliceSimL S l (modElemL (idP i) (appendChildren ns) l))
    ?_ ?_ ?_ ?_
  · intro t a cs hQ
    rw [show modElem (idP i) (appendChildren ns) (.element t a cs) =
        (if idP i t a then appendChildren ns (.element t a cs)
         else .element t a (modElemL (idP i) (appendChildren ns) cs)) from rfl]
    by_cases hp : idP i t a
    · rw [if_pos hp]
      have hid : alook a "id" = some i := by
        have hb : (alook a "id" == some i) = true := hp
        exact eq_of_beq hb
      exact SpliceSim.elemApp t a ⟨i, hi, hid⟩ (spliceSimL_refl S cs)
    · rw [if_neg hp]
      exact SpliceSim.elem t a hQ
  · intro s
    exact SpliceSim.text s
  · exact SpliceSimL.nil
  · intro c cs hP hQ
    rw [show modElemL (idP i) (appendChildren ns) (c :: cs) =
        (if (findElem (idP i) c).isSome then modElem (idP i) (appendChildren ns) c :: cs
         else c :: modElemL (idP i) (appendChildren ns) cs) from rfl]
    by_cases hf : (findElem (idP i) c).isSome
    · rw [if_pos hf]
      exact SpliceSimL.cons hP (spliceSimL_refl S cs)
    · rw [if_neg hf]
      exact SpliceSimL.cons (spliceSim_refl S c) hQ

theorem spliceSim_processAnimationElement (S : List String) (pf : String → List Node)
    (ae : AnimationElement) (hae : ae.elementId ∈ S) (doc out : Node)
    (h : processAnimationElement pf doc ae = some out) : SpliceSim S doc out := by
  unfold processAnimationElement at h
  cases hf : findElem (idP ae.elementId) doc with
  | none =>
    rw [hf] at h
    injection h with h2
    rw [← h2]
    exact spliceSim_refl S doc
  | some e =>
    rw [hf] at h
    cases hm : ae.animations.mapM (fragmentHead pf) with
    | none => rw [hm] at h; cases h
    | some ns =>
      rw [hm] at h
      injection h with h2
      rw [← h2]
      exact (spliceSim_modElem S ae.elementId hae ns).1 doc

theorem spliceSim_fold (S : List String) (pf : String → List Node) :
    ∀ (aes : List AnimationElement) (doc out : Node),
      (∀ ae ∈ aes, ae.elementId ∈ S) →
      aes.foldlM (processAnimationElement pf) doc = some out →
      SpliceSim S doc out := by
  intro aes
  induction aes with
  | nil =>
    intro doc out _ h
    injection h with h2
    rw [← h2]
    exact spliceSim_refl S doc
  | cons ae rest ih =>
    intro doc out hmem h
    rw [List.foldlM_cons] at h
    cases hstep : processAnimationElement pf doc ae with
    | none =>
      rw [hstep] at h
      exact Option.noConfusion h
    | some d1 =>
      rw [hstep] at h
      have h2 : rest.foldlM (processAnimationElement pf) d1 = some out := h
      exact spliceSim_trans S
        (spliceSim_processAnimationElement S pf ae (hmem ae (List.mem_cons_self ae rest)) doc d1 hstep)
        (ih d1 out (fun x hx => hmem x (List.mem_cons_of_mem ae hx)) h2)

theorem nodeTag_modElem (p : ElemPred) (f : Node → Node)
    (hf : ∀ m, nodeTag (f m) = nodeTag m) (n : Node) :
    nodeTag (modElem p f n) = nodeTag n := by
  cases n with
  | text s => rfl
  | element t a cs =>
    show nodeTag (if p t a then f (.element t a cs)
      else .element t a (modElemL p f cs)) = t
    by_cases hp : p t a
    · rw [if_pos hp, hf]
      rfl
    · rw [if_neg hp]
      rfl

theorem findElem_root_svg (n : Node) (h : nodeTag n = "svg") :
    findElem (tagP "svg") n = some n := by
  cases n with
  | text s => exact absurd (show ("" : String) = "svg" from h) (by decide)
  | element t a cs =>
    have ht : t = "svg" := h
    subst ht
    simp [findElem, tagP]

theorem nodeTag_ensureDefs (doc : Node) : nodeTag (ensureDefs doc) = nodeTag doc := by
  unfold ensureDefs
  by_cases hd : (findElem (tagP "defs") doc).isSome
  · rw [if_pos hd]
  · rw [if_neg hd]
    exact nodeTag_modElem _ _ (fun m => by cases m <;> rfl) doc

theorem nodeTag_processAnimationElement (pf : String → List Node) (doc out : Node)
    (ae : AnimationElement) (h : processAnimationElement pf doc ae = some out) :
    nodeTag out = nodeTag doc := by
  unfold processAnimationElement at h
  cases hf : findElem (idP ae.elementId) doc <;> rw [hf] at h
  · injection h with h2
    rw [← h2]
  · cases hm : ae.animations.mapM (fragmentHead pf) <;> rw [hm] at h
    · exact Option.noConfusion h
    · injection h with h2
      rw [← h2]
      exact nodeTag_modElem _ _ (fun m => by cases m <;> rfl) doc

theorem nodeTag_foldInsert (pf : String → List Node) :
    ∀ (aes : List AnimationElement) (doc out : Node),
      aes.foldlM (processAnimationElement pf) doc = some out →
      nodeTag out = nodeTag doc := by
  intro aes
  induction aes with
  | nil =>
    intro doc out h
    injection h with h2
    rw [← h2]
  | cons ae rest ih =>
    intro doc out h
    rw [List.foldlM_cons] at h
    cases hstep : processAnimationElement pf doc ae with
    | none => rw [hstep] at h; exact Option.noConfusion h
    | some d1 =>
      rw [hstep] at h
      have h2 : rest.foldlM (processAnimationElement pf) d1 = some out := h
      rw [ih d1 out h2, nodeTag_processAnimationElement pf doc d1 ae hstep]

/-- C1 (amended): splice non-interference holds relative to the document
after the defs-insertion step — for any batch, the output of
`insertAnimations` keeps every element's tag and attributes, keeps every
element's children pointwise (no deletions, reorderings or reparentings),
and appends extra children only at the end of elements whose id is
targeted; the one change the claim as stated does not allow is that, when
the document contains no `defs` element, the first `svg` element (which is
not in S) gains a new `defs` first child. -/
theorem c1_splice_non_interference (pf : String → List Node) (doc out : Node)
    (aes : List AnimationElement)
    (hroot : nodeTag doc = "svg")
    (h : insertAnimations pf doc aes = some out) :
    SpliceSim (targets aes) (ensureDefs doc) out := by
  unfold insertAnimations at h
  rw [findElem_root_svg doc hroot] at h
  simp only [Option.isSome_some, if_true] at h
  cases hf : aes.foldlM (processAnimationElement pf) (ensureDefs doc) with
  | none => rw [hf] at h; exact Option.noConfusion h
  | some d2 =>
    rw [hf] at h
    have hd2 : nodeTag d2 = "svg" := by
      rw [nodeTag_foldInsert pf aes (ensureDefs doc) d2 hf, nodeTag_ensureDefs doc, hroot]
    have h3 : findElem (tagP "svg") d2 = some out := h
    rw [findElem_root_svg d2 hd2] at h3
    injection h3 with h2
    rw [← h2]
    exact spliceSim_fold (targets aes) pf aes (ensureDefs doc) d2
      (fun ae hx => List.mem_map_of_mem _ hx) hf

/-- C1 counterexample: even with an empty batch (so S is empty and every
element's id is outside S), `insertAnimations` changes the root `svg`
element: it gains a new `defs` first child, so the root is not
child-for-child identical before and after. -/
theorem c1_counterexample :
    insertAnimations (fun _ => []) (.element "svg" [] [.element "circle" [("id", "a")] []]) [] =
      some (.element "svg" [] [defsNode, .element "circle" [("id", "a")] []]) ∧
    (Node.element "svg" [] [defsNode, .element "circle" [("id", "a")] []]) ≠
      .element "svg" [] [.element "circle" [("id", "a")] []] :=
  ⟨rfl, by decide⟩

/-- C1 witness: a one-element batch on a two-element document. -/
theorem c1_splice_non_interference_witness :
    nodeTag (Node.element "svg" [] [.element "rect" [("id", "b")] []]) = "svg" ∧
    insertAnimations (fun _ => [.element "animate" [] []])
      (.element "svg" [] [.element "rect" [("id", "b")] []])
      [⟨"b", ["<animate/>"]⟩] =
      some (.element "svg" []
        [defsNode, .element "rect" [("id", "b")] [.element "animate" [] []]]) ∧
    SpliceSim (targets [⟨"b", ["<animate/>"]⟩])
      (ensureDefs (.element "svg" [] [.element "rect" [("id", "b")] []]))
      (.element "svg" [] [defsNode, .element "rect" [("id", "b")] [.element "animate" [] []]]) :=
  ⟨rfl, rfl,
   c1_splice_non_interference (fun _ => [.element "animate" [] []])
     (.element "svg" [] [.element "rect" [("id", "b")] []])
     (.element "svg" [] [defsNode, .element "rect" [("id", "b")] [.element "animate" [] []]])
     [⟨"b", ["<animate/>"]⟩] rfl rfl⟩

/-! ## C2: how the splicer changes children, id by id -/

theorem findElem_shape_pair (p : ElemPred) :
    (∀ n, ∀ e, findElem p n = some e →
      ∃ t a cs, e = .element t a cs ∧ p t a = true) ∧
    (∀ l, ∀ e, findElemL p l = some e →
      ∃ t a cs, e = .element t a cs ∧ p t a = true) := by
  refine node_rec_pair
    (fun n => ∀ e, findElem p n = some e → ∃ t a cs, e = .element t a cs ∧ p t a = true)
    (fun l => ∀ e, findElemL p l = some e → ∃ t a cs, e = .element t a cs ∧ p t a = true)
    ?_ ?_ ?_ ?_
  · intro t a cs hQ e h
    rw [show findElem p (.element t a cs) =
        (if p t a then some (.element t a cs) else findElemL p cs) from rfl] at h
    by_cases hp : p t a
    · rw [if_pos hp] at h
      injection h with h2
      exact ⟨t, a, cs, h2.symm, hp⟩
    · rw [if_neg hp] at h
      exact hQ e h
  · intro s e h
    exact Option.noConfusion h
  · intro e h
    exact Option.noConfusion h
  · intro c cs hP hQ e h
    rw [show findElemL p (c :: cs) =
        (match findElem p c with
         | some x => some x
         | none => findElemL p cs) from rfl] at h
    cases hc : findElem p c with
    | some x => rw [hc] at h; injection h with h2; exact h2 ▸ hP x hc
    | none => rw [hc] at h; exact hQ e h

theorem findElemL_append_some (p : ElemPred) (xs ys : List Node) (e : Node)
    (h : findElemL p xs = some e) : findElemL p (xs ++ ys) = some e := by
  induction xs with
  | nil => exact Option.noConfusion h
  | cons c cs ih =>
    rw [List.cons_append]
    rw [show findElemL p (c :: cs) =
        (match findElem p c with
         | some x => some x
         | none => findElemL p cs) from rfl] at h
    rw [show findElemL p (c :: (cs ++ ys)) =
        (match findElem p c with
         | some x => some x
         | none => findElemL p (cs ++ ys)) from rfl]
    cases hc : findElem p c with
    | some x => rw [hc] at h; exact h
    | none => rw [hc] at h; exact ih h

theorem findElemL_append_none (p : ElemPred) (xs ys : List Node)
    (h : findElemL p xs = none) : findElemL p (xs ++ ys) = findElemL p ys := by
  induction xs with
  | nil => rfl
  | cons c cs ih =>
    rw [List.cons_append]
    rw [show findElemL p (c :: cs) =
        (match findElem p c with
         | some x => some x
         | none => findElemL p cs) from rfl] at h
    rw [show findElemL p (c :: (cs ++ ys)) =
        (match findElem p c with
         | some x => some x
         | none => findElemL p (cs ++ ys)) from rfl]
    cases hc : findElem p c with
    | some x => rw [hc] at h; exact Option.noConfusion h
    | none => rw [hc] at h; exact ih h

theorem findElemL_none_of_all (p : ElemPred) (l : List Node)
    (h : ∀ m ∈ l, findElem p m = none) : findElemL p l = none := by
  induction l with
  | nil => rfl
  | cons c cs ih =>
    rw [show findElemL p (c :: cs) =
        (match findElem p c with
         | some x => some x
         | none => findElemL p cs) from rfl]
    rw [h c (List.mem_cons_self c cs)]
    exact ih (fun m hm => h m (List.mem_cons_of_mem c hm))

theorem findElem_modElem_self_pair (i : String) (ns : List Node) :
    (∀ n, ∀ e, findElem (idP i) n = some e →
      findElem (idP i) (modElem (idP i) (appendChildren ns) n) = some (appendChildren ns e)) ∧
    (∀ l, ∀ e, findElemL (idP i) l = some e →
      findElemL (idP i) (modElemL (idP i) (appendChildren ns) l) = some (appendChildren ns e)) := by
  refine node_rec_pair
    (fun n => ∀ e, findElem (idP i) n = some e →
      findElem (idP i) (modElem (idP i) (appendChildren ns) n) = some (appendChildren ns e))
    (fun l => ∀ e, findElemL (idP i) l = some e →
      findElemL (idP i) (modElemL (idP i) (appendChildren ns) l) = some (appendChildren ns e))
    ?_ ?_ ?_ ?_
  · intro t a cs hQ e h
    rw [show findElem (idP i) (.element t a cs) =
        (if idP i t a then some (.element t a cs) else findElemL (idP i) cs) from rfl] at h
    rw [show modElem (idP i) (appendChildren ns) (.element t a cs) =
        (if idP i t a then appendChildren ns (.element t a cs)
         else .element t a (modElemL (idP i) (appendChildren ns) cs)) from rfl]
    by_cases hp : idP i t a
    · rw [if_pos hp] at h
      rw [if_pos hp]
      injection h with h2
      rw [← h2]
      rw [show appendChildren ns (.element t a cs) = .element t a (cs ++ ns) from rfl]
      rw [show findElem (idP i) (.element t a (cs ++ ns)) =
          (if idP i t a then some (.element t a (cs ++ ns))
           else findElemL (idP i) (cs ++ ns)) from rfl]
      rw [if_pos hp]
    · rw [if_neg hp] at h
      rw [if_neg hp]
      rw [show findElem (idP i) (.element t a (modElemL (idP i) (appendChildren ns) cs)) =
          (if idP i t a then some (.element t a (modElemL (idP i) (appendChildren ns) cs))
           else findElemL (idP i) (modElemL (idP i) (appendChildren ns) cs)) from rfl]
      rw [if_neg hp]
      exact hQ e h
  · intro s e h
    exact Option.noConfusion h
  · intro e h
    exact Option.noConfusion h
  · intro c cs hP hQ e h
    rw [show findElemL (idP i) (c :: cs) =
        (match findElem (idP i) c with
         | some x => some x
         | none => findElemL (idP i) cs) from rfl] at h
    rw [show modElemL (idP i) (appendChildren ns) (c :: cs) =
        (if (findElem (idP i) c).isSome then modElem (idP i) (appendChildren ns) c :: cs
         else c :: modElemL (idP i) (appendChildren ns) cs) from rfl]
    cases hc : findElem (idP i) c with
    | some x =>
      rw [hc] at h
      injection h with h2
      simp only [Option.isSome_some, if_true]
      rw [show findElemL (idP i) (modElem (idP i) (appendChildren ns) c :: cs) =
          (match findElem (idP i) (modElem (idP i) (appendChildren ns) c) with
           | some y => some y
           | none => findElemL (idP i) cs) from rfl]
      rw [hP x hc, h2]
    | none =>
      rw [hc] at h
      simp only [Option.isSome_none, Bool.false_eq_true, if_false]
      rw [show findElemL (idP i) (c :: modElemL (idP i) (appendChildren ns) cs) =
          (match findElem (idP i) c with
           | some y => some y
           | none => findElemL (idP i) (modElemL (idP i) (appendChildren ns) cs)) from rfl]
      rw [hc]
      exact hQ e h

theorem findElem_none_modElem_pair (p q : ElemPred) (ns : List Node)
    (hns : ∀ m ∈ ns, findElem p m = none) :
    (∀ n, findElem p n = none →
      findElem p (modElem q (appendChildren ns) n) = none) ∧
    (∀ l, findElemL p l = none →
      findElemL p (modElemL q (appendChildren ns) l) = none) := by
  refine node_rec_pair
    (fun n => findElem p n = none → findElem p (modElem q (appendChildren ns) n) = none)
    (fun l => findElemL p l = none → findElemL p (modElemL q (appendChildren ns) l) = none)
    ?_ ?_ ?_ ?_
  · intro t a cs hQ h
    rw [show findElem p (.element t a cs) =
        (if p t a then some (.element t a cs) else findElemL p cs) from rfl] at h
    by_cases hp : p t a
    · rw [if_pos hp] at h
      exact Option.noConfusion h
    · rw [if_neg hp] at h
      rw [show modElem q (appendChildren ns) (.element t a cs) =
          (if q t a then appendChildren ns (.element t a cs)
           else .element t a (modElemL q (appendChildren ns) cs)) from rfl]
      by_cases hq : q t a
      · rw [if_pos hq]
        rw [show appendChildren ns (.element t a cs) = .element t a (cs ++ ns) from rfl]
        rw [show findElem p (.element t a (cs ++ ns)) =
            (if p t a then some (.element t a (cs ++ ns)) else findElemL p (cs ++ ns)) from rfl]
        rw [if_neg hp, findElemL_append_none p cs ns h]
        exact findElemL_none_of_all p ns hns
      · rw [if_neg hq]
        rw [show findElem p (.element t a (modElemL q (appendChildren ns) cs)) =
            (if p t a then some (.element t a (modElemL q (appendChildren ns) cs))
             else findElemL p (modElemL q (appendChildren ns) cs)) from rfl]
        rw [if_neg hp]
        exact hQ h
  · intro s _
    rfl
  · intro _
    rfl
  · intro c cs hP hQ h
    rw [show findElemL p (c :: cs) =
        (match findElem p c with
         | some x => some x
         | none => findElemL p cs) from rfl] at h
    cases hc : findElem p c with
    | some x => rw [hc] at h; exact Option.noConfusion h
    | none =>
      rw [hc] at h
      rw [show modElemL q (appendChildren ns) (c :: cs) =
          (if (findElem q c).isSome then modElem q (appendChildren ns) c :: cs
           else c :: modElemL q (appendChildren ns) cs) from rfl]
      by_cases hqc : (findElem q c).isSome
      · rw [if_pos hqc]
        rw [show findElemL p (modElem q (appendChildren ns) c :: cs) =
            (match findElem p (modElem q (appendChildren ns) c) with
             | some y => some y
             | none => findElemL p cs) from rfl]
        rw [hP hc]
        exact h
      · rw [if_neg hqc]
        rw [show findElemL p (c :: modElemL q (appendChildren ns) cs) =
            (match findElem p c with
             | some y => some y
             | none => findElemL p (modElemL q (appendChildren ns) cs)) from rfl]
        rw [hc]
        exact hQ h

theorem modElemL_id_of_none (q : ElemPred) (f : Node → Node) (l : List Node)
    (h : ∀ m ∈ l, findElem q m = none) : modElemL q f l = l := by
  induction l with
  | nil => rfl
  | cons c cs ih =>
    rw [show modElemL q f (c :: cs) =
        (if (findElem q c).isSome then modElem q f c :: cs
         else c :: modElemL q f cs) from rfl]
    rw [h c (List.mem_cons_self c cs)]
    simp only [Option.isSome_none, Bool.false_eq_true, if_false]
    rw [ih (fun m hm => h m (List.mem_cons_of_mem c hm))]

theorem modElemL_append_of_none (q : ElemPred) (f : Node → Node) (cs0 suf : List Node)
    (hsuf : ∀ m ∈ suf, findElem q m = none) :
    modElemL q f (cs0 ++ suf) = modElemL q f cs0 ++ suf := by
  induction cs0 with
  | nil =>
    simpa using modElemL_id_of_none q f suf hsuf
  | cons c cs ih =>
    rw [List.cons_append]
    rw [show modElemL q f (c :: (cs ++ suf)) =
        (if (findElem q c).isSome then modElem q f c :: (cs ++ suf)
         else c :: modElemL q f (cs ++ suf)) from rfl]
    rw [show modElemL q f (c :: cs) =
        (if (findElem q c).isSome then modElem q f c :: cs
         else c :: modElemL q f cs) from rfl]
    by_cases hqc : (findElem q c).isSome
    · rw [if_pos hqc, if_pos hqc]
      rfl
    · rw [if_neg hqc, if_neg hqc, ih]
      rfl

theorem modElemL_length (q : ElemPred) (f : Node → Node) :
    ∀ l : List Node, (modElemL q f l).length = l.length := by
  intro l
  induction l with
  | nil => rfl
  | cons c cs ih =>
    rw [show modElemL q f (c :: cs) =
        (if (findElem q c).isSome then modElem q f c :: cs
         else c :: modElemL q f cs) from rfl]
    by_cases hqc : (findElem q c).isSome
    · rw [if_pos hqc]
      simp
    · rw [if_neg hqc]
      simp [ih]

theorem findElem_children_modElem_other_pair (i j : String) (hij : i ≠ j)
    (ns : List Node) (hnsi : ∀ m ∈ ns, findElem (idP i) m = none) :
    (∀ n, ∀ (t : String) (a : List (String × String)) (cs0 suf : List Node),
      (∀ m ∈ suf, findElem (idP j) m = none) →
      findElem (idP i) n = some (.element t a (cs0 ++ suf)) →
      ∃ cs1, findElem (idP i) (modElem (idP j) (appendChildren ns) n) =
          some (.element t a (cs1 ++ suf)) ∧ cs1.length = cs0.length) ∧
    (∀ l, ∀ (t : String) (a : List (String × String)) (cs0 suf : List Node),
      (∀ m ∈ suf, findElem (idP j) m = none) →
      findElemL (idP i) l = some (.element t a (cs0 ++ suf)) →
      ∃ cs1, findElemL (idP i) (modElemL (idP j) (appendChildren ns) l) =
          some (.element t a (cs1 ++ suf)) ∧ cs1.length = cs0.length) := by
  refine node_rec_pair
    (fun n => ∀ (t : String) (a : List (String × String)) (cs0 suf : List Node),
      (∀ m ∈ suf, findElem (idP j) m = none) →
      findElem (idP i) n = some (.element t a (cs0 ++ suf)) →
      ∃ cs1, findElem (idP i) (modElem (idP j) (appendChildren ns) n) =
          some (.element t a (cs1 ++ suf)) ∧ cs1.length = cs0.length)
    (fun l => ∀ (t : String) (a : List (String × String)) (cs0 suf : List Node),
      (∀ m ∈ suf, findElem (idP j) m = none) →
      findElemL (idP i) l = some (.element t a (cs0 ++ suf)) →
      ∃ cs1, findElemL (idP i) (modElemL (idP j) (appendChildren ns) l) =
          some (.element t a (cs1 ++ suf)) ∧ cs1.length = cs0.length)
    ?_ ?_ ?_ ?_
  · intro t2 a2 cs2 hQ t a cs0 suf hsuf hres
    rw [show findElem (idP i) (.element t2 a2 cs2) =
        (if idP i t2 a2 then some (.element t2 a2 cs2) else findElemL (idP i) cs2) from rfl] at hres
    rw [show modElem (idP j) (appendChildren ns) (.element t2 a2 cs2) =
        (if idP j t2 a2 then appendChildren ns (.element t2 a2 cs2)
         else .element t2 a2 (modElemL (idP j) (appendChildren ns) cs2)) from rfl]
    by_cases hpi : idP i t2 a2
    · rw [if_pos hpi] at hres
      injection hres with hres2
      injection hres2 with ht ha hcs
      rw [ht, ha] at hpi
      rw [ht, ha, hcs]
      have hidi : alook a "id" = some i := eq_of_beq hpi
      have hqj : ¬ (idP j t a = true) := by
        intro hh
        have : alook a "id" = some j := eq_of_beq hh
        rw [hidi] at this
        exact hij (Option.some.inj this)
      rw [if_neg hqj]
      rw [modElemL_append_of_none (idP j) (appendChildren ns) cs0 suf hsuf]
      refine ⟨modElemL (idP j) (appendChildren ns) cs0, ?_, modElemL_length _ _ cs0⟩
      rw [show findElem (idP i)
          (.element t a (modElemL (idP j) (appendChildren ns) cs0 ++ suf)) =
          (if idP i t a
           then some (.element t a (modElemL (idP j) (appendChildren ns) cs0 ++ suf))
           else findElemL (idP i) (modElemL (idP j) (appendChildren ns) cs0 ++ suf)) from rfl]
      rw [if_pos hpi]
    · rw [if_neg hpi] at hres
      by_cases hqj : idP j t2 a2
      · rw [if_pos hqj]
        rw [show appendChildren ns (.element t2 a2 cs2) = .element t2 a2 (cs2 ++ ns) from rfl]
        rw [show findElem (idP i) (.element t2 a2 (cs2 ++ ns)) =
            (if idP i t2 a2 then some (.element t2 a2 (cs2 ++ ns))
             else findElemL (idP i) (cs2 ++ ns)) from rfl]
        rw [if_neg hpi]
        exact ⟨cs0, findElemL_append_some (idP i) cs2 ns _ hres, rfl⟩
      · rw [if_neg hqj]
        rw [show findElem (idP i)
            (.element t2 a2 (modElemL (idP j) (appendChildren ns) cs2)) =
            (if idP i t2 a2
             then some (.element t2 a2 (modElemL (idP j) (appendChildren ns) cs2))
             else findElemL (idP i) (modElemL (idP j) (appendChildren ns) cs2)) from rfl]
        rw [if_neg hpi]
        exact hQ t a cs0 suf hsuf hres
  · intro s t a cs0 suf _ hres
    exact Option.noConfusion hres
  · intro t a cs0 suf _ hres
    exact Option.noConfusion hres
  · intro c cs hP hQ t a cs0 suf hsuf hres
    rw [show findElemL (idP i) (c :: cs) =
        (match findElem (idP i) c with
         | some x => some x
         | none => findElemL (idP i) cs) from rfl] at hres
    rw [show modElemL (idP j) (appendChildren ns) (c :: cs) =
        (if (findElem (idP j) c).isSome then modElem (idP j) (appendChildren ns) c :: cs
         else c :: modElemL (idP j) (appendChildren ns) cs) from rfl]
    cases hc : findElem (idP i) c with
    | some x =>
      rw [hc] at hres
      have hx : x = .element t a (cs0 ++ suf) := Option.some.inj hres
      subst hx
      by_cases hjc : (findElem (idP j) c).isSome
      · rw [if_pos hjc]
        obtain ⟨cs1, hfind, hlen⟩ := hP t a cs0 suf hsuf hc
        rw [show findElemL (idP i) (modElem (idP j) (appendChildren ns) c :: cs) =
            (match findElem (idP i) (modElem (idP j) (appendChildren ns) c) with
             | some y => some y
             | none => findElemL (idP i) cs) from rfl]
        rw [hfind]
        exact ⟨cs1, rfl, hlen⟩
      · rw [if_neg hjc]
        rw [show findElemL (idP i) (c :: modElemL (idP j) (appendChildren ns) cs) =
            (match findElem (idP i) c with
             | some y => some y
             | none => findElemL (idP i) (modElemL (idP j) (appendChildren ns) cs)) from rfl]
        rw [hc]
        exact ⟨cs0, rfl, rfl⟩
    | none =>
      rw [hc] at hres
      by_cases hjc : (findElem (idP j) c).isSome
      · rw [if_pos hjc]
        rw [show findElemL (idP i) (modElem (idP j) (appendChildren ns) c :: cs) =
            (match findElem (idP i) (modElem (idP j) (appendChildren ns) c) with
             | some y => some y
             | none => findElemL (idP i) cs) from rfl]
        rw [(findElem_none_modElem_pair (idP i) (idP j) ns hnsi).1 c hc]
        exact ⟨cs0, hres, rfl⟩
      · rw [if_neg hjc]
        rw [show findElemL (idP i) (c :: modElemL (idP j) (appendChildren ns) cs) =
            (match findElem (idP i) c with
             | some y => some y
             | none => findElemL (idP i) (modElemL (idP j) (appendChildren ns) cs)) from rfl]
        rw [hc]
        exact hQ t a cs0 suf hsuf hres

theorem mapM_fragmentHead (pf : String → List Node) :
    ∀ (l : List String), (∀ s ∈ l, pf (trimString s) ≠ []) →
      l.mapM (fragmentHead pf) =
        some (l.map (fun s => (pf (trimString s)).headD (.text ""))) := by
  intro l
  induction l with
  | nil => intro _; rfl
  | cons s rest ih =>
    intro h
    rw [List.mapM_cons]
    have hs : fragmentHead pf s = some ((pf (trimString s)).headD (.text "")) := by
      unfold fragmentHead
      cases hps : pf (trimString s) with
      | nil => exact absurd hps (h s (List.mem_cons_self s rest))
      | cons x xs => rfl
    rw [hs, ih (fun s2 hs2 => h s2 (List.mem_cons_of_mem s hs2))]
    rfl

theorem appendedFor_nil (pf : String → List Node) (i : String) :
    appendedFor pf i [] = [] := rfl

theorem appendedFor_cons (pf : String → List Node) (i : String) (ae : AnimationElement)
    (rest : List AnimationElement) :
    appendedFor pf i (ae :: rest) =
      (if ae.elementId == i then fragNodes pf ae else []) ++ appendedFor pf i rest := by
  by_cases h : ae.elementId == i
  · simp [appendedFor, List.filter_cons, h]
  · simp [appendedFor, List.filter_cons, h]

theorem appendedFor_length (pf : String → List Node) (i : String)
    (aes : List AnimationElement) :
    (appendedFor pf i aes).length =
      ((aes.filter (fun ae => ae.elementId == i)).map
        (fun ae => ae.animations.length)).sum := by
  induction aes with
  | nil => rfl
  | cons ae rest ih =>
    rw [appendedFor_cons]
    by_cases h : ae.elementId == i
    · simp [List.filter_cons, h, fragNodes, ih]
    · simp [List.filter_cons, h, ih]

theorem insert_children_fold (pf : String → List Node) (S : List String) :
    ∀ (aes : List AnimationElement) (d out : Node) (i : String) (t : String)
      (a : List (String × String)) (cs0 suf : List Node),
      (∀ ae ∈ aes, ae.elementId ∈ S) →
      (∀ ae ∈ aes, ∀ s ∈ ae.animations, pf (trimString s) ≠ []) →
      (∀ ae ∈ aes, ∀ s ∈ ae.animations, ∀ j ∈ S,
        findElem (idP j) ((pf (trimString s)).headD (.text "")) = none) →
      i ∈ S →
      (∀ m ∈ suf, ∀ j ∈ S, findElem (idP j) m = none) →
      findElem (idP i) d = some (.element t a (cs0 ++ suf)) →
      aes.foldlM (processAnimationElement pf) d = some out →
      ∃ cs1, findElem (idP i) out =
          some (.element t a (cs1 ++ (suf ++ appendedFor pf i aes))) ∧
        cs1.length = cs0.length := by
  intro aes
  induction aes with
  | nil =>
    intro d out i t a cs0 suf _ _ _ _ _ hres h
    injection h with h2
    rw [← h2, appendedFor_nil, List.append_nil]
    exact ⟨cs0, hres, rfl⟩
  | cons ae rest ih =>
    intro d out i t a cs0 suf hmem hne hcap hi hsufS hres h
    rw [List.foldlM_cons] at h
    rw [appendedFor_cons]
    cases hstep : processAnimationElement pf d ae with
    | none => rw [hstep] at h; exact Option.noConfusion h
    | some d1 =>
      rw [hstep] at h
      have h2 : rest.foldlM (processAnimationElement pf) d1 = some out := h
      have hmem2 : ∀ x ∈ rest, x.elementId ∈ S :=
        fun x hx => hmem x (List.mem_cons_of_mem ae hx)
      have hne2 : ∀ x ∈ rest, ∀ s ∈ x.animations, pf (trimString s) ≠ [] :=
        fun x hx => hne x (List.mem_cons_of_mem ae hx)
      have hcap2 : ∀ x ∈ rest, ∀ s ∈ x.animations, ∀ j ∈ S,
          findElem (idP j) ((pf (trimString s)).headD (.text "")) = none :=
        fun x hx => hcap x (List.mem_cons_of_mem ae hx)
      unfold processAnimationElement at hstep
      by_cases hii : ae.elementId = i
      · rw [hii] at hstep
        rw [hres] at hstep
        rw [mapM_fragmentHead pf ae.animations
          (hne ae (List.mem_cons_self ae rest))] at hstep
        injection hstep with h3
        have hfind1 := (findElem_modElem_self_pair i
          (ae.animations.map (fun s => (pf (trimString s)).headD (.text "")))).1 d _ hres
        rw [h3] at hfind1
        have hres1 : findElem (idP i) d1 =
            some (.element t a (cs0 ++ (suf ++ fragNodes pf ae))) := by
          rw [hfind1]
          rw [show appendChildren
              (ae.animations.map (fun s => (pf (trimString s)).headD (.text "")))
              (.element t a (cs0 ++ suf)) =
              .element t a ((cs0 ++ suf) ++
                ae.animations.map (fun s => (pf (trimString s)).headD (.text ""))) from rfl]
          rw [List.append_assoc]
          rfl
        have hsufS2 : ∀ m ∈ suf ++ fragNodes pf ae, ∀ j ∈ S, findElem (idP j) m = none := by
          intro m hm j hj
          rcases List.mem_append.mp hm with hm1 | hm2
          · exact hsufS m hm1 j hj
          · obtain ⟨s, hs, rfl⟩ := List.mem_map.mp hm2
            exact hcap ae (List.mem_cons_self ae rest) s hs j hj
        obtain ⟨cs1, hfind2, hlen2⟩ := ih d1 out i t a cs0 (suf ++ fragNodes pf ae)
          hmem2 hne2 hcap2 hi hsufS2 hres1 h2
        rw [if_pos (by rw [hii]; exact beq_self_eq_true i)]
        refine ⟨cs1, ?_, hlen2⟩
        rw [hfind2, List.append_assoc]
      · cases hf : findElem (idP ae.elementId) d with
        | none =>
          rw [hf] at hstep
          injection hstep with h3
          subst h3
          obtain ⟨cs1, hfind2, hlen2⟩ := ih d out i t a cs0 suf
            hmem2 hne2 hcap2 hi hsufS hres h2
          rw [if_neg (by simp [hii])]
          exact ⟨cs1, by simpa using hfind2, hlen2⟩
        | some x =>
          rw [hf] at hstep
          rw [mapM_fragmentHead pf ae.animations
            (hne ae (List.mem_cons_self ae rest))] at hstep
          injection hstep with h3
          have hij : i ≠ ae.elementId := fun hh => hii hh.symm
          have hnsi : ∀ m ∈ fragNodes pf ae, findElem (idP i) m = none := by
            intro m hm
            obtain ⟨s, hs, rfl⟩ := List.mem_map.mp hm
            exact hcap ae (List.mem_cons_self ae rest) s hs i hi
          have hsufj : ∀ m ∈ suf, findElem (idP ae.elementId) m = none :=
            fun m hm => hsufS m hm ae.elementId (hmem ae (List.mem_cons_self ae rest))
          obtain ⟨cs1, hfind1, hlen1⟩ :=
            (findElem_children_modElem_other_pair i ae.elementId hij
              (fragNodes pf ae) hnsi).1 d t a cs0 suf hsufj hres
          simp only [fragNodes] at hfind1
          rw [h3] at hfind1
          obtain ⟨cs2, hfind2, hlen2⟩ := ih d1 out i t a cs1 suf
            hmem2 hne2 hcap2 hi hsufS hfind1 h2
          rw [if_neg (by simp [hii])]
          refine ⟨cs2, by simpa using hfind2, ?_⟩
          rw [hlen2, hlen1]

/-- C2. Splice completeness, corrected: in `insertAnimations`, for a target id `i`
that resolves (in the document *after* the defs-insertion step) to an element with
children `cs`, and provided every fragment parses to at least one node and no
fragment itself carries a targeted id (no id capture), the output still holds that
element with its tag and attributes, its children now a same-length prefix followed
by exactly the batch's fragment head-nodes for `i`, in batch order; their number is
the sum over the batch entries naming `i` of the entry's fragment count. The claim
as stated fails without the no-capture proviso, and counts fragments per occurrence
of the id in the batch rather than per `AnimationElement`. -/
theorem c2_splice_completeness (pf : String → List Node) (doc out : Node)
    (aes : List AnimationElement) (i t : String) (a : List (String × String))
    (cs : List Node)
    (hroot : nodeTag doc = "svg")
    (h : insertAnimations pf doc aes = some out)
    (hne : ∀ ae ∈ aes, ∀ s ∈ ae.animations, pf (trimString s) ≠ [])
    (hcap : ∀ ae ∈ aes, ∀ s ∈ ae.animations, ∀ j ∈ targets aes,
      findElem (idP j) ((pf (trimString s)).headD (.text "")) = none)
    (hi : i ∈ targets aes)
    (hres : findElem (idP i) (ensureDefs doc) = some (.element t a cs)) :
    ∃ cs1, findElem (idP i) out = some (.element t a (cs1 ++ appendedFor pf i aes)) ∧
      cs1.length = cs.length ∧
      (appendedFor pf i aes).length =
        ((aes.filter (fun ae => ae.elementId == i)).map
          (fun ae => ae.animations.length)).sum := by
  unfold insertAnimations at h
  rw [findElem_root_svg doc hroot] at h
  simp only [Option.isSome_some, if_true] at h
  cases hf : aes.foldlM (processAnimationElement pf) (ensureDefs doc) with
  | none => rw [hf] at h; exact Option.noConfusion h
  | some d2 =>
    rw [hf] at h
    have hd2 : nodeTag d2 = "svg" := by
      rw [nodeTag_foldInsert pf aes _ d2 hf, nodeTag_ensureDefs doc, hroot]
    have h3 : findElem (tagP "svg") d2 = some out := h
    rw [findElem_root_svg d2 hd2] at h3
    injection h3 with h4
    obtain ⟨cs1, hfind, hlen⟩ := insert_children_fold pf (targets aes) aes
      (ensureDefs doc) d2 i t a cs []
      (fun ae hx => List.mem_map_of_mem _ hx) hne hcap hi
      (fun m hm => absurd hm (List.not_mem_nil m))
      (by rw [List.append_nil]; exact hres) hf
    refine ⟨cs1, ?_, hlen, appendedFor_length pf i aes⟩
    rw [← h4]
    simpa using hfind

/-- C2 counterexample: resolution happens against the live, already-mutated
document, so an earlier fragment that carries `id="a"` captures a later batch
entry targeting `a`. In `docC2` the id `a` resolves to the circle (with zero
children), yet after `insertAnimations` the circle is unchanged: the
`animateTransform` fragment was appended to the injected `animate` inside `#r`
instead, so the resolved target's child count did not increase. -/
theorem c2_counterexample :
    insertAnimations pfC2 docC2 aesC2 = some outC2 ∧
    findElem (idP "a") docC2 = some (.element "circle" [("id", "a")] []) ∧
    findElem (idP "a") outC2 =
      some (.element "animate" [("id", "a")] [.element "animateTransform" [] []]) ∧
    findElem (tagP "circle") outC2 = some (.element "circle" [("id", "a")] []) := by
  refine ⟨?_, rfl, rfl, rfl⟩
  rfl

theorem c2_splice_completeness_witness :
    ∃ cs1,
      findElem (idP "a")
          (.element "svg" []
            [.element "defs" [] [],
             .element "rect" [("id", "r")] [],
             .element "circle" [("id", "a")] [.element "animate" [] []]]) =
        some (.element "circle" [("id", "a")]
          (cs1 ++ appendedFor (fun _ => [.element "animate" [] []]) "a"
            [⟨"a", ["x"]⟩])) ∧
      cs1.length = ([] : List Node).length ∧
      (appendedFor (fun _ => [.element "animate" [] []]) "a"
          [⟨"a", ["x"]⟩]).length =
        ((([⟨"a", ["x"]⟩] : List AnimationElement).filter
            (fun ae => ae.elementId == "a")).map
          (fun ae => ae.animations.length)).sum :=
  c2_splice_completeness (fun _ => [.element "animate" [] []])
    docC2
    (.element "svg" []
      [.element "defs" [] [],
       .element "rect" [("id", "r")] [],
       .element "circle" [("id", "a")] [.element "animate" [] []]])
    [⟨"a", ["x"]⟩] "a" "circle" [("id", "a")] []
    (by decide) (by decide) (by decide) (by decide) (by decide) (by decide)

theorem alook_cons (q : String × String) (m : List (String × String)) (k : String) :
    alook (q :: m) k = if (q.1 == k) = true then some q.2 else alook m k := by
  by_cases h : q.1 == k
  · simp [alook, List.find?, h]
  · simp [alook, List.find?, h]

theorem alook_map_set_self (m : List (String × String)) (k v : String)
    (h : m.any (fun p => p.1 == k) = true) :
    alook (m.map (fun p => if (p.1 == k) = true then (k, v) else p)) k = some v := by
  induction m with
  | nil => simp at h
  | cons q m ih =>
    by_cases hq : q.1 == k
    · rw [List.map_cons, if_pos hq, alook_cons]
      simp
    · rw [List.map_cons, if_neg hq, alook_cons, if_neg hq]
      exact ih (by simpa [List.any_cons, hq] using h)

theorem alook_map_set_other (m : List (String × String)) (k v k2 : String)
    (hk : (k == k2) = false) :
    alook (m.map (fun p => if (p.1 == k) = true then (k, v) else p)) k2 = alook m k2 := by
  induction m with
  | nil => rfl
  | cons q m ih =>
    by_cases hq : q.1 == k
    · have hq2 : (q.1 == k2) = false := by
        rw [eq_of_beq hq]; exact hk
      rw [List.map_cons, if_pos hq, alook_cons, if_neg (by simp [hk]),
        alook_cons, if_neg (by simp [hq2])]
      exact ih
    · rw [List.map_cons, if_neg hq, alook_cons, alook_cons]
      by_cases hq2 : q.1 == k2
      · rw [if_pos hq2, if_pos hq2]
      · rw [if_neg hq2, if_neg hq2]
        exact ih

theorem alook_none_of_not_mem_keys (k : String) :
    ∀ (m : List (String × String)), k ∉ m.map Prod.fst → alook m k = none := by
  intro m
  induction m with
  | nil => intro _; rfl
  | cons q m ih =>
    intro h
    rw [List.map_cons] at h
    rw [alook_cons, if_neg ?_]
    · exact ih (fun hm => h (List.mem_cons_of_mem _ hm))
    · intro hq
      exact h (by rw [← eq_of_beq hq]; exact List.mem_cons_self _ _)

theorem alook_append_single_self (k v : String) :
    ∀ (m : List (String × String)), alook m k = none →
      alook (m ++ [(k, v)]) k = some v := by
  intro m
  induction m with
  | nil => intro _; simp [alook, List.find?]
  | cons q m ih =>
    intro h
    rw [alook_cons] at h
    by_cases hq : q.1 == k
    · rw [if_pos hq] at h; exact Option.noConfusion h
    · rw [if_neg hq] at h
      rw [List.cons_append, alook_cons, if_neg hq]
      exact ih h

theorem alook_append_single_other (k v k2 : String) (hk : (k == k2) = false) :
    ∀ (m : List (String × String)), alook (m ++ [(k, v)]) k2 = alook m k2 := by
  intro m
  induction m with
  | nil => simp [alook, List.find?, hk]
  | cons q m ih =>
    rw [List.cons_append, alook_cons, alook_cons]
    by_cases hq : q.1 == k2
    · rw [if_pos hq, if_pos hq]
    · rw [if_neg hq, if_neg hq]
      exact ih

theorem any_false_alook_none (m : List (String × String)) (k : String)
    (h : m.any (fun p => p.1 == k) = false) : alook m k = none := by
  apply alook_none_of_not_mem_keys
  intro hm
  obtain ⟨p, hp, hpk⟩ := List.mem_map.mp hm
  have : m.any (fun p => p.1 == k) = true :=
    List.any_eq_true.mpr ⟨p, hp, by rw [hpk]; exact beq_self_eq_true k⟩
  rw [h] at this
  exact Bool.noConfusion this

theorem alook_objInsert_self (m : List (String × String)) (k v : String) :
    alook (objInsert m k v) k = some v := by
  unfold objInsert
  by_cases h : m.any (fun p => p.1 == k)
  · rw [if_pos h]
    exact alook_map_set_self m k v h
  · rw [if_neg h]
    exact alook_append_single_self k v m
      (any_false_alook_none m k (by
        cases hx : m.any (fun p => p.1 == k) with
        | true => exact absurd hx h
        | false => rfl))

theorem alook_objInsert_other (m : List (String × String)) (k v k2 : String)
    (hk : (k == k2) = false) : alook (objInsert m k v) k2 = alook m k2 := by
  unfold objInsert
  by_cases h : m.any (fun p => p.1 == k)
  · rw [if_pos h]
    exact alook_map_set_other m k v k2 hk
  · rw [if_neg h]
    exact alook_append_single_other k v k2 hk m

theorem map_set_keys (k v : String) :
    ∀ (m : List (String × String)),
      (m.map (fun p => if (p.1 == k) = true then (k, v) else p)).map Prod.fst =
        m.map Prod.fst := by
  intro m
  induction m with
  | nil => rfl
  | cons q m ih =>
    rw [List.map_cons, List.map_cons, List.map_cons]
    by_cases hq : q.1 == k
    · rw [if_pos hq, ih]
      show k :: _ = q.1 :: _
      rw [eq_of_beq hq]
    · rw [if_neg hq, ih]

theorem mem_keys_of_any (m : List (String × String)) (k : String)
    (h : m.any (fun p => p.1 == k) = true) : k ∈ m.map Prod.fst := by
  obtain ⟨p, hp, hpk⟩ := List.any_eq_true.mp h
  exact List.mem_map.mpr ⟨p, hp, eq_of_beq hpk⟩

theorem objInsert_keys_nodup (m : List (String × String)) (k v : String)
    (h : (m.map Prod.fst).Nodup) : ((objInsert m k v).map Prod.fst).Nodup := by
  unfold objInsert
  by_cases ha : m.any (fun p => p.1 == k)
  · rw [if_pos ha, map_set_keys]
    exact h
  · rw [if_neg ha, List.map_append]
    refine List.Nodup.append h (List.nodup_singleton k) ?_
    intro x hx hk
    rw [List.map_singleton, List.mem_singleton] at hk
    refine ha (List.any_eq_true.mpr ?_)
    obtain ⟨p, hp, hpk⟩ := List.mem_map.mp hx
    refine ⟨p, hp, ?_⟩
    show (p.1 == k) = true
    rw [hpk, hk]
    exact beq_self_eq_true k

theorem foldIns_keys_nodup :
    ∀ (l m : List (String × String)), (m.map Prod.fst).Nodup →
      (((l.foldl (fun m2 p => objInsert m2 p.1 p.2) m)).map Prod.fst).Nodup := by
  intro l
  induction l with
  | nil => intro m h; exact h
  | cons p l ih =>
    intro m h
    rw [List.foldl_cons]
    exact ih (objInsert m p.1 p.2) (objInsert_keys_nodup m p.1 p.2 h)

theorem objOfList_keys_nodup (l : List (String × String)) :
    ((objOfList l).map Prod.fst).Nodup :=
  foldIns_keys_nodup l [] List.nodup_nil

theorem alook_foldIns_nodup (k : String) :
    ∀ (b : List (String × String)), (b.map Prod.fst).Nodup →
      ∀ (m : List (String × String)),
      alook (b.foldl (fun m2 p => objInsert m2 p.1 p.2) m) k =
        match alook b k with
        | some v => some v
        | none => alook m k := by
  intro b
  induction b with
  | nil => intro _ m; rfl
  | cons p b ih =>
    intro hnd m
    rw [List.map_cons] at hnd
    rw [List.foldl_cons, ih (List.Nodup.of_cons hnd) (objInsert m p.1 p.2)]
    by_cases hp : p.1 == k
    · have hk : p.1 = k := eq_of_beq hp
      have hBnone : alook b k = none := by
        apply alook_none_of_not_mem_keys
        rw [← hk]
        exact (List.nodup_cons.mp hnd).1
      rw [hBnone, alook_cons, if_pos hp]
      show alook (objInsert m p.1 p.2) k = some p.2
      rw [← hk]
      exact alook_objInsert_self m p.1 p.2
    · have hpk : (p.1 == k) = false := by
        cases hx : p.1 == k with
        | true => exact absurd hx hp
        | false => rfl
      rw [alook_objInsert_other m p.1 p.2 k hpk, alook_cons, if_neg (by simp [hpk])]

/-- C6. Root-attribute reconciliation, corrected: when both root `<svg ...>` tags
are recognizable, `validateSvgStructure` succeeds and rebuilds the candidate's
root tag from the merged attribute object; for every attribute key that the
extraction pattern finds in the original tag, the original's (last-assigned)
value wins, and for every key the pattern finds only in the candidate tag, the
candidate's value is kept; the original XML declaration (plus a newline) is
prepended whenever the candidate does not start with it.  Keys the pattern
misses (names shorter than two word characters, unquoted or single-quoted
values) are dropped entirely, which refutes the claim as stated. -/
theorem c6_root_attr_reconciliation (svg orig : String) (origTag newTag : List Char)
    (ho : firstSvgTag orig.data = some origTag)
    (hn : firstSvgTag (withOrigDecl svg.data orig.data) = some newTag) :
    validateSvgStructure svg orig = .ok (String.mk (
      let svg2 := replaceSvgTag
        (("<svg " ++ joinAttrsSp (reconciledRootAttrs newTag origTag) ++ ">").data)
        (withOrigDecl svg.data orig.data)
      if ("</svg>".data).isSuffixOf svg2 then svg2 else svg2 ++ ("</svg>".data))) ∧
    (∀ k v, alook (objOfList (extractAttrs origTag)) k = some v →
      alook (reconciledRootAttrs newTag origTag) k = some v) ∧
    (∀ k, alook (objOfList (extractAttrs origTag)) k = none →
      alook (reconciledRootAttrs newTag origTag) k =
        alook (objOfList (extractAttrs newTag)) k) ∧
    (∀ d, firstXmlDecl orig.data = some d → d.isPrefixOf svg.data = false →
      withOrigDecl svg.data orig.data = d ++ '\n' :: removeXmlDecl svg.data) := by
  refine ⟨?_, ?_, ?_, ?_⟩
  · simp only [validateSvgStructure]
    rw [ho, hn]
  · intro k v h
    show alook (objMerge (objOfList (extractAttrs newTag))
      (objOfList (extractAttrs origTag))) k = some v
    rw [show objMerge (objOfList (extractAttrs newTag)) (objOfList (extractAttrs origTag)) =
        (objOfList (extractAttrs origTag)).foldl (fun m2 p => objInsert m2 p.1 p.2)
          (objOfList (extractAttrs newTag)) from rfl]
    rw [alook_foldIns_nodup k (objOfList (extractAttrs origTag))
      (objOfList_keys_nodup (extractAttrs origTag)) (objOfList (extractAttrs newTag))]
    rw [h]
  · intro k h
    show alook (objMerge (objOfList (extractAttrs newTag))
      (objOfList (extractAttrs origTag))) k = _
    rw [show objMerge (objOfList (extractAttrs newTag)) (objOfList (extractAttrs origTag)) =
        (objOfList (extractAttrs origTag)).foldl (fun m2 p => objInsert m2 p.1 p.2)
          (objOfList (extractAttrs newTag)) from rfl]
    rw [alook_foldIns_nodup k (objOfList (extractAttrs origTag))
      (objOfList_keys_nodup (extractAttrs origTag)) (objOfList (extractAttrs newTag))]
    rw [h]
  · intro d hd hpre
    unfold withOrigDecl
    rw [hd]
    show (if d.isPrefixOf svg.data = true then svg.data
      else d ++ '\n' :: removeXmlDecl svg.data) = _
    rw [if_neg (by rw [hpre]; exact Bool.false_ne_true)]

/-- C6 counterexample: both root tags are recognizable and both carry the
attribute `x` (key present in both), yet the reconciled output's root tag
carries neither the original's value `1` nor the candidate's `2` — the
single-letter name is not matched by the extraction pattern
`(\w+:?\w+)="([^"]*)"`, so the attribute is dropped from the rebuilt tag. -/
theorem c6_counterexample :
    validateSvgStructure "<svg x=\"2\"></svg>" "<svg x=\"1\"></svg>" =
      Except.ok "<svg ></svg>" ∧
    firstSvgTag ("<svg x=\"1\"></svg>" : String).data =
      some ("<svg x=\"1\">" : String).data ∧
    firstSvgTag ("<svg x=\"2\"></svg>" : String).data =
      some ("<svg x=\"2\">" : String).data ∧
    (("<svg ></svg>" : String).data.contains 'x') = false := by
  refine ⟨?_, rfl, rfl, rfl⟩
  rfl

theorem c6_root_attr_reconciliation_witness :
    (validateSvgStructure "<svg viewBox=\"0 0 1 1\" fill=\"blue\"></svg>"
        "<svg viewBox=\"0 0 2 2\" stroke=\"red\"></svg>" =
      .ok (String.mk (
        let svg2 := replaceSvgTag
          (("<svg " ++ joinAttrsSp (reconciledRootAttrs
              ("<svg viewBox=\"0 0 1 1\" fill=\"blue\">" : String).data
              ("<svg viewBox=\"0 0 2 2\" stroke=\"red\">" : String).data) ++ ">").data)
          (withOrigDecl ("<svg viewBox=\"0 0 1 1\" fill=\"blue\"></svg>" : String).data
            ("<svg viewBox=\"0 0 2 2\" stroke=\"red\"></svg>" : String).data)
        if ("</svg>".data).isSuffixOf svg2 then svg2 else svg2 ++ ("</svg>".data)))) ∧
    (∀ k v, alook (objOfList (extractAttrs
        ("<svg viewBox=\"0 0 2 2\" stroke=\"red\">" : String).data)) k = some v →
      alook (reconciledRootAttrs
        ("<svg viewBox=\"0 0 1 1\" fill=\"blue\">" : String).data
        ("<svg viewBox=\"0 0 2 2\" stroke=\"red\">" : String).data) k = some v) ∧
    (∀ k, alook (objOfList (extractAttrs
        ("<svg viewBox=\"0 0 2 2\" stroke=\"red\">" : String).data)) k = none →
      alook (reconciledRootAttrs
        ("<svg viewBox=\"0 0 1 1\" fill=\"blue\">" : String).data
        ("<svg viewBox=\"0 0 2 2\" stroke=\"red\">" : String).data) k =
        alook (objOfList (extractAttrs
          ("<svg viewBox=\"0 0 1 1\" fill=\"blue\">" : String).data)) k) ∧
    (∀ d, firstXmlDecl ("<svg viewBox=\"0 0 2 2\" stroke=\"red\"></svg>" : String).data =
        some d →
      d.isPrefixOf ("<svg viewBox=\"0 0 1 1\" fill=\"blue\"></svg>" : String).data = false →
      withOrigDecl ("<svg viewBox=\"0 0 1 1\" fill=\"blue\"></svg>" : String).data
          ("<svg viewBox=\"0 0 2 2\" stroke=\"red\"></svg>" : String).data =
        d ++ '\n' :: removeXmlDecl
          ("<svg viewBox=\"0 0 1 1\" fill=\"blue\"></svg>" : String).data) :=
  c6_root_attr_reconciliation
    "<svg viewBox=\"0 0 1 1\" fill=\"blue\"></svg>"
    "<svg viewBox=\"0 0 2 2\" stroke=\"red\"></svg>"
    ("<svg viewBox=\"0 0 2 2\" stroke=\"red\">" : String).data
    ("<svg viewBox=\"0 0 1 1\" fill=\"blue\">" : String).data
    rfl rfl
